import Mathlib

set_option maxRecDepth 8000

/-!
# Verification of the LogBull Go client core

A shallow embedding, in Lean 4, of the core of the `logbull-go` library:
the field sanitizer (`internal/formatting`), the configuration validators
(`internal/validation`), the logger constructor (`core` package), the
batching sender (`core/sender.go`) and the unique-timestamp generator,
together with theorems about the documented behaviour of each part.

Go maps are modelled as association lists whose order stands for the
(nondeterministic) map iteration order; Go channels are modelled as lists;
`select` with several ready cases takes an explicit choice argument standing
for the runtime's random pick.  Machine integers are modelled as `Int`/`Nat`
with explicit wrap-around where the Go code relies on it.
-/

namespace LogBull

/-! ## Field values

Go `any` values, modelled as a tagged union per the wire format: JSON-like
values plus a `chanv` variant standing for non-serializable runtime values
(channels, functions, ...) whose payload is their `fmt.Sprint` rendering. -/

inductive GoValue where
  | null : GoValue
  | str : String → GoValue
  | int : Int → GoValue
  | bool : Bool → GoValue
  | arr : List GoValue → GoValue
  | obj : List (String × GoValue) → GoValue
  | chanv : String → GoValue

mutual

/-- `json.Marshal(value)` succeeds exactly when no non-serializable value is
nested anywhere inside `value`. -/
def isJSONSerializable : GoValue → Bool
  | .null => true
  | .str _ => true
  | .int _ => true
  | .bool _ => true
  | .arr es => allSerializable es
  | .obj kvs => allValuesSerializable kvs
  | .chanv _ => false

def allSerializable : List GoValue → Bool
  | [] => true
  | v :: vs => isJSONSerializable v && allSerializable vs

def allValuesSerializable : List (String × GoValue) → Bool
  | [] => true
  | kv :: kvs => isJSONSerializable kv.2 && allValuesSerializable kvs

end

mutual

/-- A JSON rendering of a serializable value (string escaping is not
modelled; no claim depends on the rendered text, only on it being a string). -/
def jsonRender : GoValue → String
  | .null => "null"
  | .str s => "\"" ++ s ++ "\""
  | .int n => toString n
  | .bool b => if b then "true" else "false"
  | .arr es => "[" ++ renderList es ++ "]"
  | .obj kvs => "\x7b" ++ renderObj kvs ++ "\x7d"
  | .chanv r => r

def renderList : List GoValue → String
  | [] => ""
  | [v] => jsonRender v
  | v :: vs => jsonRender v ++ "," ++ renderList vs

def renderObj : List (String × GoValue) → String
  | [] => ""
  | [kv] => "\"" ++ kv.1 ++ "\":" ++ jsonRender kv.2
  | kv :: kvs => "\"" ++ kv.1 ++ "\":" ++ jsonRender kv.2 ++ "," ++ renderObj kvs

end

/-- `formatting.convertToString`: `nil` renders as `"null"`; otherwise
`json.Marshal` output, falling back to `fmt.Sprint` when marshalling fails. -/
def convertToString (value : GoValue) : String :=
  match value with
  | .null => "null"
  | v => if isJSONSerializable v then jsonRender v else
      match v with
      | .chanv r => r
      | v => jsonRender v

/-! ## Go `strings.TrimSpace` -/

/-- Code points for which Go `unicode.IsSpace` holds. -/
def goSpaceCodes : List Nat :=
  [9, 10, 11, 12, 13, 32, 0x85, 0xA0, 0x1680,
   0x2000, 0x2001, 0x2002, 0x2003, 0x2004, 0x2005, 0x2006, 0x2007,
   0x2008, 0x2009, 0x200A, 0x2028, 0x2029, 0x202F, 0x205F, 0x3000]

def goIsSpace (c : Char) : Bool := goSpaceCodes.contains c.toNat

/-- Go `strings.TrimSpace`: drop leading and trailing white space. -/
def goTrimSpace (s : String) : String :=
  ⟨((s.data.dropWhile goIsSpace).reverse.dropWhile goIsSpace).reverse⟩

/-! ## `formatting.EnsureFields`

Go maps are association lists; the list order models the map iteration
order, and `setField` models `formatted[key] = value` (overwrite or append). -/

abbrev Fields := List (String × GoValue)

/-- Map assignment `m[key] = value` on the association-list model. -/
def setField (m : Fields) (key : String) (value : GoValue) : Fields :=
  if m.any (fun kv => kv.1 = key) then
    m.map (fun kv => if kv.1 = key then (key, value) else kv)
  else m ++ [(key, value)]

/-- The per-value step of `EnsureFields`: serializable values are kept,
others are replaced by their best-effort string form. -/
def sanitizeValue (value : GoValue) : GoValue :=
  if isJSONSerializable value then value else .str (convertToString value)

/-- `formatting.EnsureFields`: `nil` input yields an empty map; otherwise
each entry's key is trimmed, entries with empty trimmed key are dropped, and
non-serializable values are replaced by a string form. -/
def EnsureFields (fields : Option Fields) : Fields :=
  match fields with
  | none => []
  | some fs =>
      fs.foldl
        (fun formatted kv =>
          let key := goTrimSpace kv.1
          if key = ("") then formatted
          else setField formatted key (sanitizeValue kv.2))
        []

/-- An entry as produced by `EnsureFields`: non-empty trimmed key,
serializable value. -/
def goodEntry (kv : String × GoValue) : Prop :=
  kv.1 ≠ ("") ∧ goTrimSpace kv.1 = kv.1 ∧ isJSONSerializable kv.2 = true

/-! ## Validation (`internal/validation/validation.go`) -/

def isHexDigit (c : Char) : Bool :=
  (('0' ≤ c) && (c ≤ '9')) || (('a' ≤ c) && (c ≤ 'f')) || (('A' ≤ c) && (c ≤ 'F'))

/-- Go regexp `uuidPattern` (`[0-9a-fA-F]` groups of 8-4-4-4-12 separated by
dashes), decided positionally. -/
def uuidMatch (s : String) : Bool :=
  (s.data.length == 36) &&
    s.data.enum.all (fun ic =>
      if ic.1 = 8 || ic.1 = 13 || ic.1 = 18 || ic.1 = 23 then ic.2 = '-' else isHexDigit ic.2)

/-- `validation.ValidateProjectID` (the UUID-format error text is abbreviated;
no claim depends on it). -/
def ValidateProjectID (projectID : String) : Except String Unit :=
  let projectID := goTrimSpace projectID
  if projectID = ("") then Except.error ("project ID cannot be empty")
  else if !(uuidMatch projectID) then
    Except.error (("invalid project ID format ") ++ projectID)
  else Except.ok ()

def isAPIKeyChar (c : Char) : Bool :=
  (('a' ≤ c) && (c ≤ 'z')) || (('A' ≤ c) && (c ≤ 'Z')) || (('0' ≤ c) && (c ≤ '9')) ||
    c = '_' || c = '-' || c = '.'

/-- `validation.ValidateAPIKey`.  Go measures `len` in bytes; here length is
in characters — for this ASCII-only pattern the accepted/rejected outcome
is the same. -/
def ValidateAPIKey (apiKey : String) : Except String Unit :=
  let apiKey := goTrimSpace apiKey
  if apiKey.length < 10 then
    Except.error ("API key must be at least 10 characters long")
  else if !(apiKey.data.all isAPIKeyChar) then
    Except.error ("invalid API key format")
  else Except.ok ()

/-- Scheme/host extraction, modelling `net/url.Parse` for absolute
`scheme://host[/path]` URLs.  Inputs that do not start with `http://` or
`https://` map to an empty scheme; `ValidateHostURL` rejects them, as Go does
for every such string at its scheme check (Go-only edge cases such as
upper-case schemes are outside the modelled domain and unused by any claim). -/
def parseSchemeHost (s : String) : String × String :=
  if (("http://").data).isPrefixOf s.data then
    (("http"), ⟨(s.data.drop 7).takeWhile (fun c => c != '/')⟩)
  else if (("https://").data).isPrefixOf s.data then
    (("https"), ⟨(s.data.drop 8).takeWhile (fun c => c != '/')⟩)
  else ((""), (""))

/-- `validation.ValidateHostURL`. -/
def ValidateHostURL (host : String) : Except String Unit :=
  let host := goTrimSpace host
  if host = ("") then Except.error ("host URL cannot be empty")
  else
    let sh := parseSchemeHost host
    if !(sh.1 = ("http") || sh.1 = ("https")) then
      Except.error ("host URL must use http or https scheme")
    else if sh.2 = ("") then Except.error ("host URL must have a host component")
    else Except.ok ()

/-! ## Log levels and configuration (`core/types.go`) -/

/-- Go `type LogLevel string`. -/
abbrev LogLevel := String

def DEBUG : LogLevel := ("DEBUG")

def INFO : LogLevel := ("INFO")

def WARNING : LogLevel := ("WARNING")

def ERROR : LogLevel := ("ERROR")

def CRITICAL : LogLevel := ("CRITICAL")

/-- The `levelPriority` map lookup of `LogLevel.Priority()`, with Go's zero
value for keys missing from the map. -/
def levelPriority (l : LogLevel) : Nat :=
  if l = DEBUG then 10
  else if l = INFO then 20
  else if l = WARNING then 30
  else if l = ERROR then 40
  else if l = CRITICAL then 50
  else 0

structure Config where
  ProjectID : String
  Host : String
  APIKey : String
  LogLevel : LogLevel

structure LogBullLogger where
  config : Config
  minLevel : LogLevel
  context : Fields

/-- `core.NewLogger` (logger.go): trims the configuration, defaults the
level to INFO, validates project ID, host and (when non-empty) API key, and
builds the logger.  `NewSender` never fails, so its error path is absent. -/
def NewLogger (config : Config) : Except String LogBullLogger :=
  let config1 := { config with
    ProjectID := goTrimSpace config.ProjectID,
    Host := goTrimSpace config.Host,
    APIKey := goTrimSpace config.APIKey }
  let config2 := if config1.LogLevel = ("") then { config1 with LogLevel := INFO } else config1
  match ValidateProjectID config2.ProjectID with
  | Except.error e => Except.error e
  | Except.ok _ =>
    match ValidateHostURL config2.Host with
    | Except.error e => Except.error e
    | Except.ok _ =>
      if config2.APIKey ≠ ("") then
        match ValidateAPIKey config2.APIKey with
        | Except.error e => Except.error e
        | Except.ok _ =>
            Except.ok { config := config2, minLevel := config2.LogLevel, context := [] }
      else Except.ok { config := config2, minLevel := config2.LogLevel, context := [] }

/-- The level filter at the top of `LogBullLogger.log`: an entry passes
unless its priority is strictly below the logger minimum. -/
def passesLevelFilter (level minLevel : LogLevel) : Bool :=
  !(levelPriority level < levelPriority minLevel)

/-- A concrete configuration with an unrecognized minimum level. -/
def c10Config : Config :=
  { ProjectID := ("12345678-1234-1234-1234-123456789012"),
    Host := ("http://localhost:4005"),
    APIKey := (""),
    LogLevel := ("TRACE") }

/-! ## The batching sender (`core/sender.go`)

The queue channel is a FIFO list, `stopCh` a closed/open flag, `sync.Once` a
consumed flag.  `delivered` records every batch handed to the delivery
transport and `queueFullDiags` counts the queue-full stderr diagnostics. -/

def batchSize : Nat := 1000

def queueCapacity : Nat := 10000

structure LogEntry where
  Level : String
  Message : String
  Timestamp : String
  Fields : Fields

structure Sender where
  logQueue : List LogEntry
  stopClosed : Bool
  onceDone : Bool
  delivered : List (List LogEntry)
  queueFullDiags : Nat

/-- Which ready case a `select` statement picks when several are ready
(Go chooses uniformly at random). -/
inductive SelectChoice where
  | send : SelectChoice
  | stop : SelectChoice

/-- `core.NewSender`: empty queue, open stop channel, unused `sync.Once`. -/
def NewSender : Sender :=
  { logQueue := [], stopClosed := false, onceDone := false, delivered := [],
    queueFullDiags := 0 }

/-- `Sender.AddLog`, following Go select semantics: the send case is ready
iff the queue has free space, the stop case is ready iff `stopCh` is closed;
with both ready the runtime picks one (`choice`); with neither ready the
`default` case drops the entry with a queue-full diagnostic. -/
def AddLog (s : Sender) (entry : LogEntry) (choice : SelectChoice) : Sender :=
  if s.logQueue.length < queueCapacity then
    if s.stopClosed then
      match choice with
      | .send => { s with logQueue := s.logQueue ++ [entry] }
      | .stop => s
    else { s with logQueue := s.logQueue ++ [entry] }
  else
    if s.stopClosed then s
    else { s with queueFullDiags := s.queueFullDiags + 1 }

/-- `Sender.sendBatch`: drain up to `batchSize` queued entries without
blocking and, when the batch is non-empty, hand it to the delivery
transport.  Both dispatch branches (worker slot immediately available or
not) deliver the same batch, so the semaphore bookkeeping is not modelled. -/
def sendBatch (s : Sender) : Sender :=
  let logs := s.logQueue.take batchSize
  if logs.isEmpty then s
  else
    { s with logQueue := s.logQueue.drop batchSize, delivered := s.delivered ++ [logs] }

def Flush (s : Sender) : Sender := sendBatch s

/-- `Sender.Shutdown`: the `sync.Once` body closes `stopCh`, runs one final
`sendBatch` and waits for workers (`wg.Wait` is a no-op in this sequential
model); later calls do nothing. -/
def Shutdown (s : Sender) : Sender :=
  if s.onceDone then s
  else sendBatch { s with onceDone := true, stopClosed := true }

/-- Events of a sender history: producer submissions (with the select choice
the runtime takes when several cases are ready), explicit flushes, ticks of
the background batch processor, and shutdown requests. -/
inductive Event where
  | submit : LogEntry → SelectChoice → Event
  | flush : Event
  | tick : Event
  | shutdown : Event

def step (s : Sender) : Event → Sender
  | .submit e c => AddLog s e c
  | .flush => Flush s
  | .tick => sendBatch s
  | .shutdown => Shutdown s

def run (s : Sender) (evs : List Event) : Sender := evs.foldl step s

/-- Total number of entries handed to the delivery transport. -/
def totalDelivered (s : Sender) : Nat := (s.delivered.map List.length).sum

def submitEvents (es : List LogEntry) : List Event :=
  es.map (fun e => Event.submit e SelectChoice.send)

def defaultEntry : LogEntry :=
  { Level := INFO, Message := ("test message"), Timestamp := (""), Fields := [] }

/-- The spec state machine ACTIVE (0) → SHUTTING_DOWN → STOPPED (2), read
off the sender flags; the transient SHUTTING_DOWN phase is internal to the
atomic `Shutdown` of this sequential model. -/
def senderStatus (s : Sender) : Nat :=
  (if s.stopClosed then 1 else 0) + (if s.onceDone then 1 else 0)

/-! ## Delivery response handling (`core/sender.go`, `core/types.go`) -/

structure RejectedLog where
  Index : Int
  Message : String

structure LogBullResponse where
  Accepted : Int
  Rejected : Int
  Message : String
  Errors : List RejectedLog

/-- Outcome of the response-handling tail of `sendHTTPRequest`, once the
HTTP exchange has produced a status code and a body.  `parsed` below is the
verdict of `json.Unmarshal` on the body (the JSON parser itself is an
external library).  No variant carries an error to the caller: every
failure is handled locally. -/
inductive HTTPOutcome where
  | diagnosticStatus : Nat → String → HTTPOutcome
  | silentDrop : HTTPOutcome
  | success : LogBullResponse → HTTPOutcome

/-- The status and body checks at the end of `sendHTTPRequest`: a status
other than 200 or 202 yields a stderr diagnostic carrying the status and
body; an unparsable body on 200/202 returns silently; otherwise the parsed
response drives rejection handling. -/
def handleHTTPResponse (status : Nat) (body : String)
    (parsed : Option LogBullResponse) : HTTPOutcome :=
  if status ≠ 200 ∧ status ≠ 202 then HTTPOutcome.diagnosticStatus status body
  else
    match parsed with
    | none => HTTPOutcome.silentDrop
    | some r => HTTPOutcome.success r

/-- One per-error rejection diagnostic as printed by `handleRejectedLogs`
(the Fields line is printed only when the entry has fields). -/
structure RejectionDiag where
  index : Int
  errMessage : String
  level : String
  message : String
  timestamp : String
  fields : Option Fields

def rejectionDiag (err : RejectedLog) (log : LogEntry) : RejectionDiag :=
  { index := err.Index, errMessage := err.Message, level := log.Level,
    message := log.Message, timestamp := log.Timestamp,
    fields := if log.Fields.length > 0 then some log.Fields else none }

/-- `Sender.handleRejectedLogs`: for each reported error whose index is
within the sent batch, emit a diagnostic with that entry's content;
out-of-range indices produce nothing. -/
def handleRejectedLogs (response : LogBullResponse) (sentLogs : List LogEntry) :
    List RejectionDiag :=
  response.Errors.filterMap (fun err =>
    if 0 ≤ err.Index ∧ err.Index.toNat < sentLogs.length then
      some (rejectionDiag err (sentLogs.getD err.Index.toNat defaultEntry))
    else none)

/-- The complete response-processing step as seen from the sender: it reads
the sent batch and emits diagnostics, and returns the sender state as it
was — `sendHTTPRequest` never requeues a batch or redispatches (at-most-once
delivery, rejection is purely observational). -/
def processDeliveryResponse (s : Sender) (sentLogs : List LogEntry) (status : Nat)
    (body : String) (parsed : Option LogBullResponse) : Sender × List RejectionDiag :=
  match handleHTTPResponse status body parsed with
  | HTTPOutcome.success r =>
      if r.Rejected > 0 then (s, handleRejectedLogs r sentLogs) else (s, [])
  | _ => (s, [])

/-- A concrete delivery response reporting one rejected entry at index 0. -/
def c8Response : LogBullResponse :=
  { Accepted := 0, Rejected := 1, Message := (""),
    Errors := [{ Index := 0, Message := ("bad entry") }] }

/-! ## Unique timestamps (`core/timestamp.go` plus the Go `time` package)

`formatTimestamp` calls `time.Unix(ns / 1e9, ns % 1e9).UTC()` and formats it
with the layout `2006-01-02T15:04:05.000000000Z`; the relevant Go `time`
internals (`Unix` normalization, the `uint64` absolute-seconds conversion,
`absDate`, `absClock`, `appendInt`, `formatNano`) are inlined below. -/

def nsPerSecond : Nat := 1000000000

def secondsPerDay : Nat := 86400

def daysPer400Years : Nat := 146097

def daysPer100Years : Nat := 36524

def daysPer4Years : Nat := 1461

def absoluteZeroYear : Int := -292277022399

/-- Go `absoluteToInternal = (absoluteZeroYear - internalYear) * 365.2425 *
secondsPerDay`, exact because `365.2425 * 86400 = 31556952`. -/
def absoluteToInternal : Int := (absoluteZeroYear - 1) * 31556952

def unixToInternal : Int := (1969 * 365 + 1969 / 4 - 1969 / 100 + 1969 / 400) * 86400

/-- Seconds from the absolute zero instant to the Unix epoch
(`unixToInternal + internalToAbsolute`). -/
def unixToAbsolute : Int := unixToInternal - absoluteToInternal

def int64Max : Int := 9223372036854775807

def uint64Mod : Int := 18446744073709551616

def digitChar (d : Nat) : Char := Char.ofNat (48 + d % 10)

/-- Exactly `w` decimal digits of `n` (most significant first), as printed
for a field value `n < 10 ^ w`. -/
def fixedPad : Nat → Nat → List Char
  | 0, _ => []
  | w + 1, n => digitChar (n / 10 ^ w) :: fixedPad w (n % 10 ^ w)

/-- All decimal digits of `n`, least significant first. -/
def natDigitsRev (n : Nat) : List Char :=
  if n < 10 then [digitChar n]
  else digitChar (n % 10) :: natDigitsRev (n / 10)
decreasing_by omega

def natDigits (n : Nat) : List Char := (natDigitsRev n).reverse

/-- Go `time.appendInt`: a minus sign for negatives, then the decimal digits
of `|v|`, zero-padded on the left to `width`. -/
def goPadInt (width : Nat) (v : Int) : String :=
  (if v < 0 then ("-") else ("")) ++
    (if v.natAbs < 10 ^ width then String.mk (fixedPad width v.natAbs)
     else String.mk (natDigits v.natAbs))

/-- Go `isLeap`.  `%` is `Int.emod`; for the `== 0` / `!= 0` tests it agrees
with Go's truncated remainder. -/
def isLeap (year : Int) : Bool :=
  year % 4 == 0 && (year % 100 != 0 || year % 400 == 0)

/-- The 400/100/4/1-year reduction of Go `absDate`: from days since the
absolute zero instant to the absolute year index `y` (the calendar year is
`y + absoluteZeroYear`) and the 0-based day of the year.  `n - n / 4` is
Go's `n -= n >> 2` correction. -/
def absYearYday (d : Nat) : Nat × Nat :=
  let n400 := d / daysPer400Years
  let y0 := 400 * n400
  let d1 := d - daysPer400Years * n400
  let n100 := d1 / daysPer100Years
  let n100c := n100 - n100 / 4
  let y1 := y0 + 100 * n100c
  let d2 := d1 - daysPer100Years * n100c
  let n4 := d2 / daysPer4Years
  let y2 := y1 + 4 * n4
  let d3 := d2 - daysPer4Years * n4
  let n1 := d3 / 365
  let n1c := n1 - n1 / 4
  (y2 + n1c, d3 - 365 * n1c)

/-- Go's `daysBefore` table, as a function of the month number. -/
def daysBefore : Nat → Nat
  | 0 => 0
  | 1 => 31
  | 2 => 59
  | 3 => 90
  | 4 => 120
  | 5 => 151
  | 6 => 181
  | 7 => 212
  | 8 => 243
  | 9 => 273
  | 10 => 304
  | 11 => 334
  | _ => 365

/-- The month-estimation step of Go `absDate`: guess `day / 31 + 1`, then
correct by one month using the `daysBefore` table. -/
def monthDayEstimate (day : Nat) : Nat × Nat :=
  let month := day / 31 + 1
  if day ≥ daysBefore month then (month + 1, day - daysBefore month + 1)
  else (month, day - daysBefore (month - 1) + 1)

/-- The month/day extraction of Go `absDate(abs, full=true)` from the
0-based day of year: in a leap year, days after Feb 29 are shifted down by
one and Feb 29 itself is returned directly. -/
def absMonthDay (leap : Bool) (yday : Nat) : Nat × Nat :=
  if leap ∧ yday > 59 then monthDayEstimate (yday - 1)
  else if leap ∧ yday = 59 then (2, 29)
  else monthDayEstimate yday

structure DateParts where
  year : Int
  month : Nat
  day : Nat

/-- Go `absDate` on seconds since the absolute zero instant. -/
def absDate (absSec : Nat) : DateParts :=
  let d := absSec / secondsPerDay
  let yy := absYearYday d
  let year : Int := (yy.1 : Int) + absoluteZeroYear
  let md := absMonthDay (isLeap year) yy.2
  { year := year, month := md.1, day := md.2 }

/-- Go `absClock`: hour, minute, second within the day. -/
def absClock (absSec : Nat) : Nat × Nat × Nat :=
  let sec := absSec % secondsPerDay
  (sec / 3600, sec % 3600 / 60, sec % 60)

/-- `core.formatTimestamp`.  `seconds`/`nanos` are Go's truncated `int64`
division and remainder; `time.Unix` normalizes a negative nanosecond
remainder; `abs()` converts to seconds since absolute zero as a `uint64`
(modelled by the explicit `% 2^64`); the layout prints zero-padded fields
from `absDate`/`absClock`, nine nanosecond digits, and a literal Z. -/
def formatTimestamp (timestampNs : Int) : String :=
  let seconds0 := timestampNs.tdiv (nsPerSecond : Int)
  let nanos0 := timestampNs.tmod (nsPerSecond : Int)
  let seconds := if nanos0 < 0 then seconds0 - 1 else seconds0
  let nanos := if nanos0 < 0 then nanos0 + (nsPerSecond : Int) else nanos0
  let absSec : Nat := ((seconds + unixToAbsolute) % uint64Mod).toNat
  let dp := absDate absSec
  let ck := absClock absSec
  goPadInt 4 dp.year ++ ("-") ++ goPadInt 2 (dp.month : Int) ++ ("-") ++
    goPadInt 2 (dp.day : Int) ++ ("T") ++ goPadInt 2 (ck.1 : Int) ++ (":") ++
    goPadInt 2 (ck.2.1 : Int) ++ (":") ++ goPadInt 2 (ck.2.2 : Int) ++ (".") ++
    goPadInt 9 nanos ++ ("Z")

/-- The compare-and-bump step of `GenerateUniqueTimestamp`: the issued
nanosecond value, given the previous issued value and the wall-clock reading
`time.Now().UnixNano()`. -/
def genStep (lastTimestampNs nowNs : Int) : Int :=
  if nowNs ≤ lastTimestampNs then lastTimestampNs + 1 else nowNs

/-- The nanosecond values issued by successive `GenerateUniqueTimestamp`
calls: the mutex serializes the calls, the wall-clock readings are the
inputs, and the package-level `lastTimestampNs` threads through. -/
def runGeneratorNs (last : Int) : List Int → List Int
  | [] => []
  | now :: rest =>
      let t := genStep last now
      t :: runGeneratorNs t rest

/-- The timestamp strings returned by successive `GenerateUniqueTimestamp`
calls with the given wall-clock readings (the package variable starts at
zero). -/
def GenerateUniqueTimestamps (clocks : List Int) : List String :=
  (runGeneratorNs 0 clocks).map formatTimestamp

/-! Proof-side specifications for the calendar argument. -/

/-- Days from the absolute zero instant to January 1 of absolute year `y`:
365 per year plus the accumulated leap days (years with index `≡ 3 mod 4`,
century rule per `leapIdx`). -/
def dBYE (y : Nat) : Nat := 365 * y + y / 4 - y / 100 + y / 400

/-- Whether absolute year index `y` is a leap year
(`isLeap (y + absoluteZeroYear)`). -/
def leapIdx (y : Nat) : Bool :=
  (y + 1) % 4 == 0 && ((y + 1) % 100 != 0 || (y + 1) % 400 == 0)

/-- Days before month `mo` (1-based) in a year with the given leap flag. -/
def dBM (leap : Bool) (mo : Nat) : Nat :=
  daysBefore (mo - 1) + (if leap ∧ 3 ≤ mo then 1 else 0)

def monthLen (leap : Bool) (mo : Nat) : Nat :=
  daysBefore mo - daysBefore (mo - 1) + (if leap ∧ mo = 2 then 1 else 0)

def daysInYearIdx (y : Nat) : Nat := if leapIdx y then 366 else 365

/-- Validity and the day-of-year roundtrip of `absMonthDay`, as a decidable
predicate over one day of the year. -/
def mdSpec (leap : Bool) (yday : Nat) : Bool :=
  let md := absMonthDay leap yday
  (1 ≤ md.1) && (md.1 ≤ 12) && (1 ≤ md.2) && (md.2 ≤ monthLen leap md.1) &&
    (dBM leap md.1 + (md.2 - 1) == yday)

/-- The absolute year index of a day count (first component of
`absYearYday`). -/
def dayY (d : Nat) : Nat := (absYearYday d).1

/-- The month/day of a day count, as computed by `absDate`
(`isLeap (year) = leapIdx (dayY d)`). -/
def dayMD (d : Nat) : Nat × Nat :=
  absMonthDay (leapIdx (absYearYday d).1) (absYearYday d).2

def unixToAbsoluteN : Nat := unixToAbsolute.toNat

def int64MaxN : Nat := 9223372036854775807

/-- Seconds since the absolute zero instant of the instant `n` nanoseconds
after the Unix epoch. -/
def absSecN (n : Nat) : Nat := n / nsPerSecond + unixToAbsoluteN

/-- The character content of a formatted timestamp, by field. -/
def stampChars (y mo dd hh mi ss na : Nat) : List Char :=
  fixedPad 4 y ++ '-' :: (fixedPad 2 mo ++ '-' :: (fixedPad 2 dd ++ 'T' ::
    (fixedPad 2 hh ++ ':' :: (fixedPad 2 mi ++ ':' :: (fixedPad 2 ss ++ '.' ::
      (fixedPad 9 na ++ ['Z']))))))

/-! ### Lemmas about trimming -/

theorem head_dropWhile_false {p : Char → Bool} :
    ∀ (l : List Char) (c : Char), (l.dropWhile p).head? = some c → p c = false := by
  intro l
  induction l with
  | nil => intro c h; simp [List.dropWhile] at h
  | cons x xs ih =>
      intro c h
      by_cases hx : p x
      · rw [List.dropWhile_cons_of_pos hx] at h
        exact ih c h
      · rw [List.dropWhile_cons_of_neg hx] at h
        simp only [List.head?_cons, Option.some.injEq] at h
        subst h
        simpa using hx

theorem dropWhile_eq_self_of_head {p : Char → Bool} (l : List Char)
    (h : ∀ c, l.head? = some c → p c = false) : l.dropWhile p = l := by
  cases l with
  | nil => rfl
  | cons x xs =>
      have hx : p x = false := h x rfl
      simp [List.dropWhile, hx]

theorem goTrimSpace_head (s : String) (c : Char) (h : (goTrimSpace s).data.head? = some c) :
    goIsSpace c = false := by
  unfold goTrimSpace at h
  simp only at h
  set l1 := s.data.dropWhile goIsSpace with hl1
  set l2 := l1.reverse.dropWhile goIsSpace with hl2
  have hsuffix : l2 <:+ l1.reverse := List.dropWhile_suffix _
  obtain ⟨t, ht⟩ := hsuffix
  have hl1eq : l1 = l2.reverse ++ t.reverse := by
    have := congrArg List.reverse ht
    simpa using this.symm
  cases hl : l2.reverse with
  | nil => rw [hl] at h; simp at h
  | cons y ys =>
      rw [hl] at h
      simp only [List.head?_cons, Option.some.injEq] at h
      subst h
      have hhead : l1.head? = some y := by
        rw [hl1eq, hl]; rfl
      rw [hl1] at hhead
      exact head_dropWhile_false s.data y hhead

theorem goTrimSpace_revHead (s : String) (c : Char)
    (h : (goTrimSpace s).data.reverse.head? = some c) : goIsSpace c = false := by
  unfold goTrimSpace at h
  simp only [List.reverse_reverse] at h
  exact head_dropWhile_false _ c h

theorem goTrimSpace_idem (s : String) : goTrimSpace (goTrimSpace s) = goTrimSpace s := by
  have h1 : (goTrimSpace s).data.dropWhile goIsSpace = (goTrimSpace s).data :=
    dropWhile_eq_self_of_head _ (goTrimSpace_head s)
  have h2 : (goTrimSpace s).data.reverse.dropWhile goIsSpace = (goTrimSpace s).data.reverse :=
    dropWhile_eq_self_of_head _ (goTrimSpace_revHead s)
  show (⟨_⟩ : String) = _
  rw [h1, h2, List.reverse_reverse]

theorem goTrimSpace_empty : goTrimSpace ("") = ("") := rfl

/-! ### Lemmas about `EnsureFields` -/

theorem sanitizeValue_serializable (v : GoValue) :
    isJSONSerializable (sanitizeValue v) = true := by
  unfold sanitizeValue
  by_cases h : isJSONSerializable v = true
  · simp [h]
  · simp [h, isJSONSerializable]

theorem setField_keys (m : Fields) (key : String) (value : GoValue) :
    (setField m key value).map Prod.fst =
      if m.any (fun kv => kv.1 = key) then m.map Prod.fst else m.map Prod.fst ++ [key] := by
  unfold setField
  by_cases h : m.any (fun kv => decide (kv.1 = key)) = true
  · simp only [h, if_true, List.map_map]
    apply List.map_congr_left
    intro kv _
    by_cases hk : kv.1 = key
    · simp [hk]
    · simp [hk]
  · simp only [h, if_false]
    simp

theorem setField_good (m : Fields) (key : String) (value : GoValue)
    (hm : ∀ kv ∈ m, goodEntry kv) (hkv : goodEntry (key, value)) :
    ∀ kv ∈ setField m key value, goodEntry kv := by
  unfold setField
  by_cases h : m.any (fun kv => decide (kv.1 = key)) = true
  · simp only [h, if_true]
    intro kv hkvmem
    simp only [List.mem_map] at hkvmem
    obtain ⟨kv0, hkv0, hkv0eq⟩ := hkvmem
    by_cases hk : kv0.1 = key
    · simp only [hk, if_true] at hkv0eq
      rw [← hkv0eq]; exact hkv
    · simp only [hk, if_false] at hkv0eq
      rw [← hkv0eq]; exact hm kv0 hkv0
  · simp only [h, if_false]
    intro kv hkvmem
    rcases List.mem_append.mp hkvmem with hmem | hmem
    · exact hm kv hmem
    · simp at hmem
      rw [hmem]; exact hkv

theorem setField_nodup (m : Fields) (key : String) (value : GoValue)
    (hm : (m.map Prod.fst).Nodup) : ((setField m key value).map Prod.fst).Nodup := by
  rw [setField_keys]
  by_cases h : m.any (fun kv => decide (kv.1 = key)) = true
  · simpa [h] using hm
  · rw [if_neg h]
    rw [List.nodup_append]
    refine ⟨hm, List.nodup_singleton _, ?_⟩
    intro a ha hb
    simp at hb
    subst hb
    simp only [List.any_eq_true, not_exists] at h
    simp only [List.mem_map] at ha
    obtain ⟨kv, hkv, hkeq⟩ := ha
    exact h kv ⟨hkv, by simp [hkeq]⟩

theorem setField_fresh (m : Fields) (key : String) (value : GoValue)
    (h : key ∉ m.map Prod.fst) : setField m key value = m ++ [(key, value)] := by
  unfold setField
  have : m.any (fun kv => decide (kv.1 = key)) = false := by
    simp only [List.any_eq_false, decide_eq_true_eq]
    intro kv hkv heq
    exact h (List.mem_map.mpr ⟨kv, hkv, heq⟩)
  simp [this]

/-- The first pass of `EnsureFields` yields only good entries, with no
duplicate keys. -/
theorem ensureFields_fold_invariant (fs : List (String × GoValue)) :
    ∀ acc : Fields, (∀ kv ∈ acc, goodEntry kv) → ((acc.map Prod.fst).Nodup) →
      (∀ kv ∈ fs.foldl
          (fun formatted kv =>
            let key := goTrimSpace kv.1
            if key = ("") then formatted
            else setField formatted key (sanitizeValue kv.2)) acc, goodEntry kv) ∧
      (((fs.foldl
          (fun formatted kv =>
            let key := goTrimSpace kv.1
            if key = ("") then formatted
            else setField formatted key (sanitizeValue kv.2)) acc).map Prod.fst).Nodup) := by
  induction fs with
  | nil => intro acc hgood hnodup; exact ⟨hgood, hnodup⟩
  | cons kv fs ih =>
      intro acc hgood hnodup
      simp only [List.foldl_cons]
      by_cases hkey : goTrimSpace kv.1 = ("")
      · simpa [hkey] using ih acc hgood hnodup
      · simp only [hkey, if_neg, if_false]
        refine ih _ ?_ ?_
        · exact setField_good _ _ _ hgood
            ⟨hkey, goTrimSpace_idem kv.1, sanitizeValue_serializable kv.2⟩
        · exact setField_nodup _ _ _ hnodup

theorem ensureFields_good (fs : List (String × GoValue)) :
    (∀ kv ∈ EnsureFields (some fs), goodEntry kv) ∧
      ((EnsureFields (some fs)).map Prod.fst).Nodup := by
  have := ensureFields_fold_invariant fs [] (by intro kv h; simp at h) (by simp)
  simpa [EnsureFields] using this

/-- Re-running the fold over an already-sanitized list rebuilds it
unchanged. -/
theorem ensureFields_fold_id (l : List (String × GoValue)) :
    ∀ acc : Fields, (∀ kv ∈ l, goodEntry kv) → (((acc ++ l).map Prod.fst).Nodup) →
      l.foldl
          (fun formatted kv =>
            let key := goTrimSpace kv.1
            if key = ("") then formatted
            else setField formatted key (sanitizeValue kv.2)) acc = acc ++ l := by
  induction l with
  | nil => intro acc _ _; simp
  | cons kv l ih =>
      intro acc hgood hnodup
      obtain ⟨hk0, hktrim, hkser⟩ := hgood kv (List.mem_cons_self _ _)
      simp only [List.foldl_cons, hktrim]
      have hkne : ¬(kv.1 = ("")) := hk0
      rw [if_neg hkne]
      have hsane : sanitizeValue kv.2 = kv.2 := by unfold sanitizeValue; simp [hkser]
      have hfresh : kv.1 ∉ acc.map Prod.fst := by
        intro hmem
        have : ¬(acc.map Prod.fst).Disjoint ((kv :: l).map Prod.fst) := by
          intro hdis
          exact hdis hmem (by simp)
        rw [List.map_append, List.nodup_append] at hnodup
        exact this hnodup.2.2
      rw [hsane, setField_fresh _ _ _ hfresh]
      have hcons : kv = (kv.1, kv.2) := rfl
      have := ih (acc ++ [(kv.1, kv.2)])
        (fun x hx => hgood x (List.mem_cons_of_mem _ hx))
        (by simpa [← hcons] using hnodup)
      simpa [← hcons] using this

/-- Claim C9: for every field mapping `m` (including absent/`nil`, treated as
empty), `EnsureFields` is idempotent, and every key of the result is
non-empty and equal to its own trimmed form. -/
theorem c9_ensureFields_idempotent (m : Option Fields) :
    EnsureFields (some (EnsureFields m)) = EnsureFields m ∧
      ∀ kv ∈ EnsureFields m, kv.1 ≠ ("") ∧ goTrimSpace kv.1 = kv.1 := by
  have key : ∀ fs : List (String × GoValue),
      EnsureFields (some (EnsureFields (some fs))) = EnsureFields (some fs) := by
    intro fs
    obtain ⟨hgood, hnodup⟩ := ensureFields_good fs
    have := ensureFields_fold_id (EnsureFields (some fs)) [] hgood (by simpa using hnodup)
    simpa [EnsureFields] using this
  cases m with
  | none =>
      refine ⟨?_, by intro kv h; simp [EnsureFields] at h⟩
      show EnsureFields (some (EnsureFields none)) = EnsureFields none
      rfl
  | some fs =>
      refine ⟨key fs, ?_⟩
      intro kv hkv
      obtain ⟨h1, h2, _⟩ := (ensureFields_good fs).1 kv hkv
      exact ⟨h1, h2⟩

/-! ### The logger constructor and the level filter -/

/-- Claim C1: the spec (and the repository's own `console_only_test.go`)
require `NewLogger` to succeed on a config with empty project ID and host,
entering a local-echo-only mode; the code instead validates the project ID
unconditionally and rejects the empty config with an error. -/
theorem c1_newLogger_empty_config_errors :
    NewLogger { ProjectID := (""), Host := (""), APIKey := (""), LogLevel := ("") } =
      Except.error ("project ID cannot be empty") := rfl

/-- Claim C10: a non-empty unrecognized minimum level is accepted by
`NewLogger` without error (the level is never validated at construction),
its priority is 0, and a logger with such a minimum level passes entries of
every defined level through the level filter. -/
theorem c10_unrecognized_level (config : Config)
    (hne : config.LogLevel ≠ (""))
    (hn1 : config.LogLevel ≠ DEBUG) (hn2 : config.LogLevel ≠ INFO)
    (hn3 : config.LogLevel ≠ WARNING) (hn4 : config.LogLevel ≠ ERROR)
    (hn5 : config.LogLevel ≠ CRITICAL)
    (hpid : ValidateProjectID (goTrimSpace config.ProjectID) = Except.ok ())
    (hhost : ValidateHostURL (goTrimSpace config.Host) = Except.ok ())
    (hkey : goTrimSpace config.APIKey = ("") ∨
      ValidateAPIKey (goTrimSpace config.APIKey) = Except.ok ()) :
    levelPriority config.LogLevel = 0 ∧
    (∃ logger, NewLogger config = Except.ok logger ∧ logger.minLevel = config.LogLevel) ∧
    (∀ lvl ∈ [DEBUG, INFO, WARNING, ERROR, CRITICAL],
      passesLevelFilter lvl config.LogLevel = true) := by
  have hprio : levelPriority config.LogLevel = 0 := by
    unfold levelPriority
    rw [if_neg hn1, if_neg hn2, if_neg hn3, if_neg hn4, if_neg hn5]
  refine ⟨hprio, ?_, ?_⟩
  · unfold NewLogger
    simp only [hne, if_neg, if_false]
    rw [hpid, hhost]
    rcases hkey with hkey | hkey
    · rw [if_neg (by simpa using hkey)]
      exact ⟨_, rfl, rfl⟩
    · by_cases hk0 : goTrimSpace config.APIKey = ("")
      · rw [if_neg (by simpa using hk0)]
        exact ⟨_, rfl, rfl⟩
      · rw [if_pos (by simpa using hk0), hkey]
        exact ⟨_, rfl, rfl⟩
  · intro lvl hlvl
    unfold passesLevelFilter
    rw [hprio]
    simp

/-! ### Sender lemmas -/

theorem AddLog_delivered (s : Sender) (e : LogEntry) (c : SelectChoice) :
    (AddLog s e c).delivered = s.delivered := by
  unfold AddLog
  split
  · split
    · cases c <;> rfl
    · rfl
  · split <;> rfl

theorem AddLog_flags (s : Sender) (e : LogEntry) (c : SelectChoice) :
    (AddLog s e c).stopClosed = s.stopClosed ∧ (AddLog s e c).onceDone = s.onceDone := by
  unfold AddLog
  split
  · split
    · cases c <;> exact ⟨rfl, rfl⟩
    · exact ⟨rfl, rfl⟩
  · split <;> exact ⟨rfl, rfl⟩

theorem sendBatch_delivered_bound (s : Sender)
    (h : ∀ b ∈ s.delivered, b.length ≤ batchSize) :
    ∀ b ∈ (sendBatch s).delivered, b.length ≤ batchSize := by
  simp only [sendBatch]
  split
  · exact h
  · intro b hb
    simp only [List.mem_append, List.mem_singleton] at hb
    rcases hb with hb | hb
    · exact h b hb
    · rw [hb]
      exact List.length_take_le batchSize s.logQueue

theorem sendBatch_flags (s : Sender) :
    (sendBatch s).stopClosed = s.stopClosed ∧ (sendBatch s).onceDone = s.onceDone := by
  simp only [sendBatch]
  split <;> exact ⟨rfl, rfl⟩

theorem sendBatch_total (s : Sender) :
    totalDelivered (sendBatch s) = totalDelivered s + min batchSize s.logQueue.length ∧
      (sendBatch s).logQueue = s.logQueue.drop batchSize := by
  simp only [sendBatch]
  split
  · rename_i hempty
    simp only [List.isEmpty_iff, List.take_eq_nil_iff] at hempty
    have hq : s.logQueue = [] := by
      rcases hempty with h | h
      · simp [batchSize] at h
      · exact h
    constructor
    · simp [hq]
    · simp [hq]
  · constructor
    · unfold totalDelivered
      simp [List.length_take]
    · rfl

theorem step_batch_bound (s : Sender) (ev : Event)
    (h : ∀ b ∈ s.delivered, b.length ≤ batchSize) :
    ∀ b ∈ (step s ev).delivered, b.length ≤ batchSize := by
  cases ev with
  | submit e c => rw [step, AddLog_delivered]; exact h
  | flush => exact sendBatch_delivered_bound s h
  | tick => exact sendBatch_delivered_bound s h
  | shutdown =>
      show ∀ b ∈ (Shutdown s).delivered, _
      unfold Shutdown
      split
      · exact h
      · exact sendBatch_delivered_bound _ h

theorem run_batch_bound (evs : List Event) :
    ∀ s : Sender, (∀ b ∈ s.delivered, b.length ≤ batchSize) →
      ∀ b ∈ (run s evs).delivered, b.length ≤ batchSize := by
  induction evs with
  | nil => intro s h; exact h
  | cons ev evs ih =>
      intro s h
      exact ih (step s ev) (step_batch_bound s ev h)

theorem run_append (s : Sender) (a b : List Event) :
    run s (a ++ b) = run (run s a) b := by
  unfold run
  exact List.foldl_append _ _ _ _

theorem run_submits_active (es : List LogEntry) :
    ∀ s : Sender, s.stopClosed = false →
      s.logQueue.length + es.length ≤ queueCapacity →
      run s (submitEvents es) = { s with logQueue := s.logQueue ++ es } := by
  induction es with
  | nil => intro s _ _; simp [run, submitEvents]
  | cons e es ih =>
      intro s hstop hlen
      have hspace : s.logQueue.length < queueCapacity := by
        simp only [List.length_cons] at hlen; omega
      have hadd : AddLog s e SelectChoice.send = { s with logQueue := s.logQueue ++ [e] } := by
        unfold AddLog
        rw [if_pos hspace, if_neg (by simp [hstop])]
      show run s (Event.submit e SelectChoice.send :: submitEvents es) = _
      have hstep : run s (Event.submit e SelectChoice.send :: submitEvents es) =
          run (AddLog s e SelectChoice.send) (submitEvents es) := rfl
      rw [hstep, hadd]
      have hlen2 : ({ s with logQueue := s.logQueue ++ [e] } : Sender).logQueue.length
          + es.length ≤ queueCapacity := by
        show (s.logQueue ++ [e]).length + es.length ≤ queueCapacity
        have h2 : (e :: es).length = es.length + 1 := by simp
        rw [h2] at hlen
        have h1 : (s.logQueue ++ [e]).length = s.logQueue.length + 1 := by simp
        omega
      have := ih { s with logQueue := s.logQueue ++ [e] } hstop hlen2
      rw [this]
      simp

theorem run_flushes (k : Nat) :
    ∀ s : Sender,
      totalDelivered (run s (List.replicate k Event.flush)) =
          totalDelivered s + min (k * batchSize) s.logQueue.length ∧
        (run s (List.replicate k Event.flush)).logQueue = s.logQueue.drop (k * batchSize) := by
  induction k with
  | zero => intro s; simp [run]
  | succ k ih =>
      intro s
      have hrep : List.replicate (k + 1) Event.flush =
          Event.flush :: List.replicate k Event.flush := rfl
      have hstep : run s (List.replicate (k + 1) Event.flush) =
          run (sendBatch s) (List.replicate k Event.flush) := by
        rw [hrep]; rfl
      obtain ⟨ht, hq⟩ := sendBatch_total s
      obtain ⟨iht, ihq⟩ := ih (sendBatch s)
      constructor
      · rw [hstep, iht, ht, hq, List.length_drop]
        simp only [batchSize]
        omega
      · rw [hstep, ihq, hq, List.drop_drop]
        congr 1
        ring

theorem run_submits_stop (ps : List (LogEntry × SelectChoice)) :
    ∀ s : Sender, (run s (ps.map (fun p => Event.submit p.1 p.2))).stopClosed = s.stopClosed := by
  induction ps with
  | nil => intro s; rfl
  | cons p ps ih =>
      intro s
      have hstep : run s ((p :: ps).map (fun p => Event.submit p.1 p.2)) =
          run (AddLog s p.1 p.2) (ps.map (fun p => Event.submit p.1 p.2)) := rfl
      rw [hstep, ih, (AddLog_flags s p.1 p.2).1]

theorem run_submits_delivered (ps : List (LogEntry × SelectChoice)) :
    ∀ s : Sender, (run s (ps.map (fun p => Event.submit p.1 p.2))).delivered = s.delivered := by
  induction ps with
  | nil => intro s; rfl
  | cons p ps ih =>
      intro s
      have hstep : run s ((p :: ps).map (fun p => Event.submit p.1 p.2)) =
          run (AddLog s p.1 p.2) (ps.map (fun p => Event.submit p.1 p.2)) := rfl
      rw [hstep, ih, AddLog_delivered]

theorem run_submits_length (ps : List (LogEntry × SelectChoice)) :
    ∀ s : Sender, s.stopClosed = false → s.logQueue.length ≤ queueCapacity →
      (run s (ps.map (fun p => Event.submit p.1 p.2))).logQueue.length =
        min (s.logQueue.length + ps.length) queueCapacity := by
  induction ps with
  | nil =>
      intro s hstop hlen
      simp only [List.map_nil, run, List.foldl_nil, List.length_nil, Nat.add_zero]
      omega
  | cons p ps ih =>
      intro s hstop hlen
      have hstep : run s ((p :: ps).map (fun p => Event.submit p.1 p.2)) =
          run (AddLog s p.1 p.2) (ps.map (fun p => Event.submit p.1 p.2)) := rfl
      by_cases hspace : s.logQueue.length < queueCapacity
      · have hadd : AddLog s p.1 p.2 = { s with logQueue := s.logQueue ++ [p.1] } := by
          unfold AddLog
          rw [if_pos hspace, if_neg (by simp [hstop])]
        have hlen2 : ({ s with logQueue := s.logQueue ++ [p.1] } : Sender).logQueue.length
            ≤ queueCapacity := by
          show (s.logQueue ++ [p.1]).length ≤ queueCapacity
          have : (s.logQueue ++ [p.1]).length = s.logQueue.length + 1 := by simp
          omega
        have ih1 := ih { s with logQueue := s.logQueue ++ [p.1] } hstop hlen2
        rw [hstep, hadd, ih1]
        show min ((s.logQueue ++ [p.1]).length + ps.length) queueCapacity = _
        have h1 : (s.logQueue ++ [p.1]).length = s.logQueue.length + 1 := by simp
        have h2 : (p :: ps).length = ps.length + 1 := by simp
        rw [h1, h2]
        omega
      · have hadd : AddLog s p.1 p.2 = { s with queueFullDiags := s.queueFullDiags + 1 } := by
          unfold AddLog
          rw [if_neg hspace, if_neg (by simp [hstop])]
        have ih1 := ih { s with queueFullDiags := s.queueFullDiags + 1 } hstop hlen
        rw [hstep, hadd, ih1]
        show min (s.logQueue.length + ps.length) queueCapacity = _
        have h2 : (p :: ps).length = ps.length + 1 := by simp
        rw [h2]
        omega

theorem run_submits_len_diags (ps : List (LogEntry × SelectChoice)) :
    ∀ s : Sender, s.stopClosed = false →
      (run s (ps.map (fun p => Event.submit p.1 p.2))).logQueue.length +
          (run s (ps.map (fun p => Event.submit p.1 p.2))).queueFullDiags =
        s.logQueue.length + s.queueFullDiags + ps.length := by
  induction ps with
  | nil => intro s _; rfl
  | cons p ps ih =>
      intro s hstop
      have hstep : run s ((p :: ps).map (fun p => Event.submit p.1 p.2)) =
          run (AddLog s p.1 p.2) (ps.map (fun p => Event.submit p.1 p.2)) := rfl
      have h2 : (p :: ps).length = ps.length + 1 := by simp
      by_cases hspace : s.logQueue.length < queueCapacity
      · have hadd : AddLog s p.1 p.2 = { s with logQueue := s.logQueue ++ [p.1] } := by
          unfold AddLog
          rw [if_pos hspace, if_neg (by simp [hstop])]
        have ih1 := ih { s with logQueue := s.logQueue ++ [p.1] } hstop
        rw [hstep, hadd, ih1, h2]
        have h1 : (s.logQueue ++ [p.1]).length = s.logQueue.length + 1 := by simp
        show (s.logQueue ++ [p.1]).length + s.queueFullDiags + ps.length = _
        rw [h1]
        omega
      · have hadd : AddLog s p.1 p.2 = { s with queueFullDiags := s.queueFullDiags + 1 } := by
          unfold AddLog
          rw [if_neg hspace, if_neg (by simp [hstop])]
        have ih1 := ih { s with queueFullDiags := s.queueFullDiags + 1 } hstop
        rw [hstep, hadd, ih1, h2]
        show s.logQueue.length + (s.queueFullDiags + 1) + ps.length = _
        omega

theorem shutdown_conserves (s : Sender) :
    totalDelivered (Shutdown s) + (Shutdown s).logQueue.length =
      totalDelivered s + s.logQueue.length := by
  unfold Shutdown
  split
  · rfl
  · obtain ⟨ht, hq⟩ := sendBatch_total { s with onceDone := true, stopClosed := true }
    rw [ht, hq]
    show totalDelivered s + min batchSize s.logQueue.length +
        (s.logQueue.drop batchSize).length = _
    rw [List.length_drop]
    omega

theorem run_no_submit_conservation (evs : List Event) :
    ∀ s : Sender, (∀ e c, Event.submit e c ∉ evs) →
      totalDelivered (run s evs) + (run s evs).logQueue.length =
        totalDelivered s + s.logQueue.length := by
  induction evs with
  | nil => intro s _; rfl
  | cons ev evs ih =>
      intro s hns
      have hns2 : ∀ e c, Event.submit e c ∉ evs := by
        intro e c hmem
        exact hns e c (List.mem_cons_of_mem _ hmem)
      have hstep : run s (ev :: evs) = run (step s ev) evs := rfl
      rw [hstep, ih (step s ev) hns2]
      cases ev with
      | submit e c => exact absurd (List.mem_cons_self _ _) (hns e c)
      | flush =>
          obtain ⟨ht, hq⟩ := sendBatch_total s
          show totalDelivered (sendBatch s) + (sendBatch s).logQueue.length = _
          rw [ht, hq, List.length_drop]
          omega
      | tick =>
          obtain ⟨ht, hq⟩ := sendBatch_total s
          show totalDelivered (sendBatch s) + (sendBatch s).logQueue.length = _
          rw [ht, hq, List.length_drop]
          omega
      | shutdown => exact shutdown_conserves s

theorem sendBatch_not_mem (s : Sender) (e : LogEntry)
    (hq : e ∉ s.logQueue) (hd : ∀ b ∈ s.delivered, e ∉ b) :
    e ∉ (sendBatch s).logQueue ∧ ∀ b ∈ (sendBatch s).delivered, e ∉ b := by
  simp only [sendBatch]
  split
  · exact ⟨hq, hd⟩
  · constructor
    · intro hmem
      exact hq (List.drop_subset _ _ hmem)
    · intro b hb
      simp only [List.mem_append, List.mem_singleton] at hb
      rcases hb with hb | hb
      · exact hd b hb
      · rw [hb]
        intro hmem
        exact hq (List.take_subset _ _ hmem)

theorem run_entry_not_delivered (evs : List Event) :
    ∀ (s : Sender) (e : LogEntry), e ∉ s.logQueue → (∀ b ∈ s.delivered, e ∉ b) →
      (∀ c, Event.submit e c ∉ evs) →
      e ∉ (run s evs).logQueue ∧ ∀ b ∈ (run s evs).delivered, e ∉ b := by
  induction evs with
  | nil => intro s e hq hd _; exact ⟨hq, hd⟩
  | cons ev evs ih =>
      intro s e hq hd hns
      have hns2 : ∀ c, Event.submit e c ∉ evs := by
        intro c hmem
        exact hns c (List.mem_cons_of_mem _ hmem)
      have hstep : run s (ev :: evs) = run (step s ev) evs := rfl
      rw [hstep]
      refine ih (step s ev) e ?_ ?_ hns2
      case _ =>
        cases ev with
        | submit e2 c =>
            have hne : e2 ≠ e := by
              intro heq
              exact hns c (by rw [← heq]; exact List.mem_cons_self _ _)
            show e ∉ (AddLog s e2 c).logQueue
            unfold AddLog
            split
            · split
              · cases c with
                | send =>
                    simp only [List.mem_append, List.mem_singleton]
                    intro hmem
                    rcases hmem with hmem | hmem
                    · exact hq hmem
                    · exact hne hmem.symm
                | stop => exact hq
              · simp only [List.mem_append, List.mem_singleton]
                intro hmem
                rcases hmem with hmem | hmem
                · exact hq hmem
                · exact hne hmem.symm
            · split
              · exact hq
              · exact hq
        | flush => exact (sendBatch_not_mem s e hq hd).1
        | tick => exact (sendBatch_not_mem s e hq hd).1
        | shutdown =>
            show e ∉ (Shutdown s).logQueue
            unfold Shutdown
            split
            · exact hq
            · exact (sendBatch_not_mem { s with onceDone := true, stopClosed := true } e hq hd).1
      case _ =>
        cases ev with
        | submit e2 c =>
            show ∀ b ∈ (AddLog s e2 c).delivered, e ∉ b
            rw [AddLog_delivered]
            exact hd
        | flush => exact (sendBatch_not_mem s e hq hd).2
        | tick => exact (sendBatch_not_mem s e hq hd).2
        | shutdown =>
            show ∀ b ∈ (Shutdown s).delivered, e ∉ b
            unfold Shutdown
            split
            · exact hd
            · exact (sendBatch_not_mem { s with onceDone := true, stopClosed := true } e hq hd).2

/-! ### The sender claims -/

/-- Claim C3 fails as stated: submitting 1500 entries and then calling
`flush()` once delivers only 1000 entries to the transport, not 1500 (a
single `sendBatch` drains at most one batch; the repository's own
`TestSender_LargeBatch` flushes twice for this reason). -/
theorem c3_counterexample :
    totalDelivered (run NewSender
        (submitEvents (List.replicate 1500 defaultEntry) ++ [Event.flush])) = 1000 ∧
      (1000 : Nat) ≠ 1500 := by
  constructor
  · rw [run_append]
    have hsub := run_submits_active (List.replicate 1500 defaultEntry) NewSender rfl
      (by rw [List.length_replicate]; decide)
    rw [hsub]
    have hflush : run { NewSender with
          logQueue := NewSender.logQueue ++ List.replicate 1500 defaultEntry } [Event.flush] =
        sendBatch { NewSender with
          logQueue := NewSender.logQueue ++ List.replicate 1500 defaultEntry } := rfl
    rw [hflush]
    obtain ⟨ht, _⟩ := sendBatch_total { NewSender with
      logQueue := NewSender.logQueue ++ List.replicate 1500 defaultEntry }
    have hq : (NewSender.logQueue ++ List.replicate 1500 defaultEntry).length = 1500 := by
      rw [List.length_append, List.length_replicate]
      rfl
    rw [ht, hq]
    decide
  · decide

/-- Claim C3 (amended): no batch handed to the transport ever exceeds the
maximum batch size of 1000; a single `flush()` after submitting N entries to
a fresh active sender delivers exactly `min N 1000` of them; the full N are
delivered once `flush()` has been called `⌈N / 1000⌉` times. -/
theorem c3_flush_batching (es : List LogEntry) (h : es.length ≤ queueCapacity) :
    (∀ evs : List Event, ∀ b ∈ (run NewSender evs).delivered, b.length ≤ batchSize) ∧
    totalDelivered (run NewSender (submitEvents es ++ [Event.flush])) =
      min es.length batchSize ∧
    totalDelivered (run NewSender (submitEvents es ++
        List.replicate ((es.length + batchSize - 1) / batchSize) Event.flush)) = es.length := by
  have hsub := run_submits_active es NewSender rfl (by simp [NewSender]; omega)
  have ht0 : totalDelivered { NewSender with logQueue := NewSender.logQueue ++ es } = 0 := rfl
  have hq0 : ({ NewSender with logQueue := NewSender.logQueue ++ es } : Sender).logQueue = es := by
    simp [NewSender]
  refine ⟨?_, ?_, ?_⟩
  · intro evs b hb
    refine run_batch_bound evs NewSender ?_ b hb
    intro b2 hb2
    simp [NewSender] at hb2
  · rw [run_append, hsub]
    have hflush : run { NewSender with logQueue := NewSender.logQueue ++ es } [Event.flush] =
        sendBatch { NewSender with logQueue := NewSender.logQueue ++ es } := rfl
    rw [hflush]
    obtain ⟨ht, _⟩ := sendBatch_total { NewSender with logQueue := NewSender.logQueue ++ es }
    rw [ht, ht0, hq0]
    omega
  · rw [run_append, hsub]
    obtain ⟨ht, _⟩ := run_flushes ((es.length + batchSize - 1) / batchSize)
      { NewSender with logQueue := NewSender.logQueue ++ es }
    rw [ht, ht0, hq0]
    simp only [batchSize]
    omega

/-- Witness for C3 (amended) at a concrete list of three entries. -/
theorem c3_flush_batching_witness :
    (List.replicate 3 defaultEntry).length ≤ queueCapacity ∧
    totalDelivered (run NewSender (submitEvents (List.replicate 3 defaultEntry) ++
        [Event.flush])) = min (List.replicate 3 defaultEntry).length batchSize :=
  ⟨by simp [queueCapacity],
    (c3_flush_batching (List.replicate 3 defaultEntry) (by simp [queueCapacity])).2.1⟩

/-- Claim C4: `AddLog` is a total function (never blocks); on an active
sender with a full queue the entry is dropped, the state changes only by the
queue-full diagnostic count; submitting 10050 entries to a fresh sender
leaves exactly 10000 queued and 50 dropped with a diagnostic, and any
continuation that performs no further submissions delivers at most 10000
entries in total. -/
theorem c4_nonblocking_drop (ps : List (LogEntry × SelectChoice)) (h : ps.length = 10050) :
    (∀ (s : Sender) (e : LogEntry) (c : SelectChoice),
      s.stopClosed = false → s.logQueue.length = queueCapacity →
        AddLog s e c = { s with queueFullDiags := s.queueFullDiags + 1 }) ∧
    (run NewSender (ps.map (fun p => Event.submit p.1 p.2))).logQueue.length = queueCapacity ∧
    (run NewSender (ps.map (fun p => Event.submit p.1 p.2))).queueFullDiags = 50 ∧
    (∀ evs : List Event, (∀ e c, Event.submit e c ∉ evs) →
      totalDelivered (run (run NewSender (ps.map (fun p => Event.submit p.1 p.2))) evs) ≤
        queueCapacity) := by
  have hlen := run_submits_length ps NewSender rfl (by simp [NewSender])
  have hlen10000 :
      (run NewSender (ps.map (fun p => Event.submit p.1 p.2))).logQueue.length =
        queueCapacity := by
    rw [hlen, h]
    show min ((NewSender.logQueue).length + 10050) queueCapacity = queueCapacity
    simp [NewSender, queueCapacity]
  refine ⟨?_, hlen10000, ?_, ?_⟩
  · intro s e c hstop hfull
    unfold AddLog
    rw [if_neg (by omega), if_neg (by simp [hstop])]
  · have hsum := run_submits_len_diags ps NewSender rfl
    rw [hlen10000, h] at hsum
    have : NewSender.logQueue.length + NewSender.queueFullDiags = 0 := rfl
    simp [queueCapacity] at hsum ⊢
    omega
  · intro evs hns
    have hcons := run_no_submit_conservation evs
      (run NewSender (ps.map (fun p => Event.submit p.1 p.2))) hns
    have hdel : (run NewSender (ps.map (fun p => Event.submit p.1 p.2))).delivered = [] :=
      run_submits_delivered ps NewSender
    have htd : totalDelivered (run NewSender (ps.map (fun p => Event.submit p.1 p.2))) = 0 := by
      unfold totalDelivered
      rw [hdel]
      rfl
    rw [htd, hlen10000] at hcons
    omega

/-- Witness for C4 at 10050 concrete submissions. -/
theorem c4_witness :
    (List.replicate 10050 (defaultEntry, SelectChoice.send)).length = 10050 ∧
    (run NewSender ((List.replicate 10050 (defaultEntry, SelectChoice.send)).map
        (fun p => Event.submit p.1 p.2))).logQueue.length = queueCapacity :=
  ⟨by rw [List.length_replicate],
    (c4_nonblocking_drop (List.replicate 10050 (defaultEntry, SelectChoice.send))
      (by rw [List.length_replicate])).2.1⟩

/-- Claim C5: the drain-and-wait body of `Shutdown` runs exactly once — the
first call runs it (closing the stop channel and performing the final
drain), every later call leaves the sender unchanged — `Shutdown` is a total
function (never panics), and the derived ACTIVE → SHUTTING_DOWN → STOPPED
status never decreases under any event. -/
theorem c5_shutdown_once :
    (∀ s : Sender, Shutdown (Shutdown s) = Shutdown s) ∧
    (∀ s : Sender, s.onceDone = false →
      Shutdown s = sendBatch { s with onceDone := true, stopClosed := true }) ∧
    (∀ s : Sender, s.onceDone = true → Shutdown s = s) ∧
    (∀ (s : Sender) (ev : Event), senderStatus s ≤ senderStatus (step s ev)) := by
  have hfirst : ∀ s : Sender, s.onceDone = false →
      Shutdown s = sendBatch { s with onceDone := true, stopClosed := true } := by
    intro s h
    unfold Shutdown
    rw [if_neg (by simp [h])]
  have hlater : ∀ s : Sender, s.onceDone = true → Shutdown s = s := by
    intro s h
    unfold Shutdown
    rw [if_pos h]
  have hidem : ∀ s : Sender, Shutdown (Shutdown s) = Shutdown s := by
    intro s
    by_cases h : s.onceDone = true
    · rw [hlater s h, hlater s h]
    · have h0 : s.onceDone = false := by
        cases hod : s.onceDone
        · rfl
        · exact absurd hod h
      rw [hfirst s h0]
      apply hlater
      rw [(sendBatch_flags { s with onceDone := true, stopClosed := true }).2]
  refine ⟨hidem, hfirst, hlater, ?_⟩
  intro s ev
  have hle : ∀ t : Sender, t.stopClosed = s.stopClosed → t.onceDone = s.onceDone →
      senderStatus s ≤ senderStatus t := by
    intro t h1 h2
    unfold senderStatus
    rw [h1, h2]
  cases ev with
  | submit e c =>
      exact hle (AddLog s e c) (AddLog_flags s e c).1 (AddLog_flags s e c).2
  | flush => exact hle (Flush s) (sendBatch_flags s).1 (sendBatch_flags s).2
  | tick => exact hle (sendBatch s) (sendBatch_flags s).1 (sendBatch_flags s).2
  | shutdown =>
      show senderStatus s ≤ senderStatus (Shutdown s)
      unfold Shutdown
      split
      · exact Nat.le_refl _
      · have h1 := (sendBatch_flags { s with onceDone := true, stopClosed := true }).1
        have h2 := (sendBatch_flags { s with onceDone := true, stopClosed := true }).2
        unfold senderStatus
        rw [h1, h2]
        show (if s.stopClosed = true then (1 : Nat) else 0) +
            (if s.onceDone = true then 1 else 0) ≤ 2
        split <;> omega

/-- Witness for C5 at the fresh sender: the first call runs the drain body,
a second call changes nothing. -/
theorem c5_shutdown_once_witness :
    Shutdown (Shutdown NewSender) = Shutdown NewSender ∧
    NewSender.onceDone = false ∧
    Shutdown NewSender = sendBatch { NewSender with onceDone := true, stopClosed := true } :=
  ⟨c5_shutdown_once.1 NewSender, rfl, c5_shutdown_once.2.1 NewSender rfl⟩

/-- Claim C6 fails as stated: with the stop channel closed both the send
case (queue has space) and the stop case of the `select` in `AddLog` are
ready, so the runtime may pick the send case and enqueue the entry — the
queue changes — and a later flush delivers it. -/
theorem c6_counterexample :
    (Shutdown NewSender).stopClosed = true ∧
    (Shutdown NewSender).logQueue = [] ∧
    (AddLog (Shutdown NewSender) defaultEntry SelectChoice.send).logQueue = [defaultEntry] ∧
    (Flush (AddLog (Shutdown NewSender) defaultEntry SelectChoice.send)).delivered =
      [[defaultEntry]] := by
  refine ⟨rfl, rfl, rfl, rfl⟩

/-- Claim C6 (amended): after shutdown has begun, `AddLog` never blocks,
reports no error and emits no diagnostic; the entry is either silently
discarded (queue unchanged — always so when the select picks the stop case)
or, when the queue has free space and the select picks the send case, still
enqueued; a discarded entry is never part of any later delivery. -/
theorem c6_after_shutdown (s : Sender) (e : LogEntry) (c : SelectChoice)
    (h : s.stopClosed = true) :
    (AddLog s e c).queueFullDiags = s.queueFullDiags ∧
    (AddLog s e c).delivered = s.delivered ∧
    ((AddLog s e c).logQueue = s.logQueue ∨
      ((AddLog s e c).logQueue = s.logQueue ++ [e] ∧ c = SelectChoice.send ∧
        s.logQueue.length < queueCapacity)) ∧
    AddLog s e SelectChoice.stop = s ∧
    (e ∉ s.logQueue → (∀ b ∈ s.delivered, e ∉ b) →
      ∀ evs : List Event, (∀ c2, Event.submit e c2 ∉ evs) →
        ∀ b ∈ (run (AddLog s e SelectChoice.stop) evs).delivered, e ∉ b) := by
  have hstopcase : AddLog s e SelectChoice.stop = s := by
    unfold AddLog
    by_cases hsp : s.logQueue.length < queueCapacity
    · rw [if_pos hsp, if_pos h]
    · rw [if_neg hsp, if_pos h]
  refine ⟨?_, AddLog_delivered s e c, ?_, hstopcase, ?_⟩
  · unfold AddLog
    by_cases hsp : s.logQueue.length < queueCapacity
    · rw [if_pos hsp, if_pos h]
      cases c <;> rfl
    · rw [if_neg hsp, if_pos h]
  · unfold AddLog
    by_cases hsp : s.logQueue.length < queueCapacity
    · rw [if_pos hsp, if_pos h]
      cases c with
      | send => exact Or.inr ⟨rfl, rfl, hsp⟩
      | stop => exact Or.inl rfl
    · rw [if_neg hsp, if_pos h]
      exact Or.inl rfl
  · intro hq hd evs hns
    rw [hstopcase]
    exact (run_entry_not_delivered evs s e hq hd hns).2

/-- Witness for C6 (amended): a concrete post-shutdown submit with the stop
case chosen leaves the sender unchanged. -/
theorem c6_after_shutdown_witness :
    (Shutdown NewSender).stopClosed = true ∧
    AddLog (Shutdown NewSender) defaultEntry SelectChoice.stop = Shutdown NewSender :=
  ⟨rfl, (c6_after_shutdown (Shutdown NewSender) defaultEntry SelectChoice.stop rfl).2.2.2.1⟩

/-! ### The delivery-response claims -/

/-- Claim C7 fails as stated: 201 is a 2xx status, yet the code (which tests
for exactly 200 or 202) emits a status diagnostic and drops the batch
instead of treating the delivery as a success. -/
theorem c7_counterexample :
    (200 ≤ 201 ∧ 201 < 300) ∧
    handleHTTPResponse 201 ("") none = HTTPOutcome.diagnosticStatus 201 ("") :=
  ⟨by decide, rfl⟩

/-- Claim C7 (amended): when the status is 200 or 202 and the body is
unparsable, the batch is treated as delivered and dropped silently; when the
status is neither 200 nor 202, a diagnostic carrying the status and body is
emitted and the batch dropped; the handler is total and never propagates an
error to the caller, and the sender state is never modified by response
processing. -/
theorem c7_status_handling (status : Nat) (body : String)
    (parsed : Option LogBullResponse) :
    ((status = 200 ∨ status = 202) → parsed = none →
      handleHTTPResponse status body parsed = HTTPOutcome.silentDrop) ∧
    (status ≠ 200 → status ≠ 202 →
      handleHTTPResponse status body parsed = HTTPOutcome.diagnosticStatus status body) ∧
    (∀ (s : Sender) (sentLogs : List LogEntry),
      (processDeliveryResponse s sentLogs status body parsed).1 = s) := by
  refine ⟨?_, ?_, ?_⟩
  · intro hok hparse
    unfold handleHTTPResponse
    rw [if_neg (by rcases hok with h | h <;> simp [h]), hparse]
  · intro h200 h202
    unfold handleHTTPResponse
    rw [if_pos ⟨h200, h202⟩]
  · intro s sentLogs
    unfold processDeliveryResponse
    rcases handleHTTPResponse status body parsed with _ | _ | r
    · rfl
    · rfl
    · show (if r.Rejected > 0 then (s, handleRejectedLogs r sentLogs) else (s, [])).1 = s
      split <;> rfl

/-- Witness for C7 (amended) at concrete statuses 200 and 500. -/
theorem c7_status_handling_witness :
    handleHTTPResponse 200 ("not json") none = HTTPOutcome.silentDrop ∧
    handleHTTPResponse 500 ("server error") none =
      HTTPOutcome.diagnosticStatus 500 ("server error") :=
  ⟨(c7_status_handling 200 ("not json") none).1 (Or.inl rfl) rfl,
    (c7_status_handling 500 ("server error") none).2.1 (by decide) (by decide)⟩

/-- Claim C8: the rejection handler resolves every reported error index
against the original batch: exactly the bounds-checked errors produce a
diagnostic, each carrying the offending entry's level, message, timestamp
and fields (printed when non-empty); out-of-range indices — negative or
past the batch length — are ignored by the total (panic-free) handler; and
response processing never changes the sender state, so rejection never
triggers a retry. -/
theorem c8_rejection_handling (response : LogBullResponse) (sentLogs : List LogEntry) :
    handleRejectedLogs response sentLogs =
      (response.Errors.filter (fun err =>
          decide (0 ≤ err.Index) && decide (err.Index.toNat < sentLogs.length))).map
        (fun err => rejectionDiag err (sentLogs.getD err.Index.toNat defaultEntry)) ∧
    (∀ d ∈ handleRejectedLogs response sentLogs,
      ∃ err ∈ response.Errors, 0 ≤ err.Index ∧ err.Index.toNat < sentLogs.length ∧
        d = rejectionDiag err (sentLogs.getD err.Index.toNat defaultEntry)) ∧
    (∀ (s : Sender) (status : Nat) (body : String) (parsed : Option LogBullResponse),
      (processDeliveryResponse s sentLogs status body parsed).1 = s) := by
  have hmain : handleRejectedLogs response sentLogs =
      (response.Errors.filter (fun err =>
          decide (0 ≤ err.Index) && decide (err.Index.toNat < sentLogs.length))).map
        (fun err => rejectionDiag err (sentLogs.getD err.Index.toNat defaultEntry)) := by
    unfold handleRejectedLogs
    induction response.Errors with
    | nil => rfl
    | cons err errs ih =>
        rw [List.filterMap_cons, List.filter_cons]
        by_cases hp : 0 ≤ err.Index ∧ err.Index.toNat < sentLogs.length
        · rw [if_pos hp, if_pos (by simp [hp.1, hp.2]), List.map_cons, ih]
        · rw [if_neg hp, if_neg (by
            simp only [Bool.and_eq_true, decide_eq_true_eq]
            exact hp), ih]
  refine ⟨hmain, ?_, ?_⟩
  · intro d hd
    rw [hmain] at hd
    obtain ⟨err, herr, heq⟩ := List.mem_map.mp hd
    have hfil := List.mem_filter.mp herr
    refine ⟨err, hfil.1, ?_, ?_, heq.symm⟩
    · have := hfil.2
      simp only [Bool.and_eq_true, decide_eq_true_eq] at this
      exact this.1
    · have := hfil.2
      simp only [Bool.and_eq_true, decide_eq_true_eq] at this
      exact this.2
  · intro s status body parsed
    unfold processDeliveryResponse
    rcases handleHTTPResponse status body parsed with _ | _ | r
    · rfl
    · rfl
    · show (if r.Rejected > 0 then (s, handleRejectedLogs r sentLogs) else (s, [])).1 = s
      split <;> rfl

/-- Witness for C8: the spec example — one rejected entry at index 0 in a
batch of size one — yields exactly the diagnostic with that entry's content,
and the sender state is untouched. -/
theorem c8_rejection_handling_witness :
    handleRejectedLogs c8Response [defaultEntry] =
      [rejectionDiag { Index := 0, Message := ("bad entry") } defaultEntry] ∧
    (processDeliveryResponse NewSender [defaultEntry] 200 ("")
        (some c8Response)).1 = NewSender :=
  ⟨rfl, (c8_rejection_handling c8Response [defaultEntry]).2.2 NewSender 200 ("")
    (some c8Response)⟩

/-- Witness for C10 at a concrete valid configuration with minimum level
TRACE. -/
theorem c10_unrecognized_level_witness :
    levelPriority c10Config.LogLevel = 0 ∧
    (∃ logger, NewLogger c10Config = Except.ok logger ∧
      logger.minLevel = c10Config.LogLevel) ∧
    (∀ lvl ∈ [DEBUG, INFO, WARNING, ERROR, CRITICAL],
      passesLevelFilter lvl c10Config.LogLevel = true) :=
  c10_unrecognized_level c10Config (by decide) (by decide) (by decide) (by decide)
    (by decide) (by decide) rfl rfl (Or.inl rfl)

/-! ### Calendar lemmas -/

theorem absYearYday_spec (d : Nat) :
    dBYE (absYearYday d).1 + (absYearYday d).2 = d ∧
    ((absYearYday d).2 < 365 ∨
      ((absYearYday d).2 = 365 ∧ leapIdx (absYearYday d).1 = true)) := by
  simp only [absYearYday, daysPer400Years, daysPer100Years, daysPer4Years, dBYE, leapIdx,
    Bool.and_eq_true, Bool.or_eq_true, beq_iff_eq, bne_iff_ne, ne_eq]
  generalize he : d / 146097 = e
  generalize hd1 : d - 146097 * e = d1
  generalize hn100 : d1 / 36524 = n100
  generalize hq100 : n100 / 4 = q100
  generalize ha : n100 - q100 = a
  generalize hd2 : d1 - 36524 * a = d2
  generalize hb : d2 / 1461 = b
  generalize hd3 : d2 - 1461 * b = d3
  generalize hn1 : d3 / 365 = n1
  generalize hq1 : n1 / 4 = q1
  generalize hc : n1 - q1 = c
  generalize hyd : d3 - 365 * c = yd
  have hd1b : d1 ≤ 146096 := by omega
  have hn100b : n100 ≤ 4 := by omega
  have ha3 : a ≤ 3 := by omega
  have hd2b : d2 ≤ 36524 := by interval_cases n100 <;> omega
  have hb24 : b ≤ 24 := by omega
  have hd3b : d3 ≤ 1460 := by omega
  have hn1b : n1 ≤ 4 := by omega
  have hc3 : c ≤ 3 := by omega
  have hident : d = 146097 * e + 36524 * a + 1461 * b + 365 * c + yd := by omega
  have hcorner : yd < 365 ∨ (yd = 365 ∧ c = 3 ∧ (b = 24 → a = 3)) := by
    rcases Nat.lt_or_ge yd 365 with h | h
    · exact Or.inl h
    · refine Or.inr ⟨?_, ?_, ?_⟩
      · interval_cases n1 <;> omega
      · interval_cases n1 <;> omega
      · intro hb24eq
        interval_cases n100 <;> omega
  have hdiv4 : (400 * e + 100 * a + 4 * b + c) / 4 = 100 * e + 25 * a + b := by omega
  have hdiv100 : (400 * e + 100 * a + 4 * b + c) / 100 = 4 * e + a := by omega
  have hdiv400 : (400 * e + 100 * a + 4 * b + c) / 400 = e := by omega
  constructor
  · rw [hdiv4, hdiv100, hdiv400]
    omega
  · rcases hcorner with h | ⟨h365, hcc, hbb⟩
    · exact Or.inl h
    · refine Or.inr ⟨h365, ?_, ?_⟩
      · omega
      · omega

theorem absYearYday_yday_lt (d : Nat) :
    (absYearYday d).2 < daysInYearIdx (absYearYday d).1 := by
  unfold daysInYearIdx
  rcases (absYearYday_spec d).2 with h | ⟨h365, hleap⟩
  · split <;> omega
  · rw [if_pos hleap]
    omega

theorem mdSpec_nonleap : ∀ yd, yd < 365 → mdSpec false yd = true := by decide

theorem mdSpec_leap : ∀ yd, yd < 366 → mdSpec true yd = true := by decide

theorem mdSpec_holds (leap : Bool) (yd : Nat)
    (h : yd < (if leap then 366 else 365)) : mdSpec leap yd = true := by
  cases leap
  · exact mdSpec_nonleap yd (by simpa using h)
  · exact mdSpec_leap yd (by simpa using h)

theorem isLeap_absYear (y : Nat) : isLeap ((y : Int) + absoluteZeroYear) = leapIdx y := by
  unfold isLeap leapIdx absoluteZeroYear
  rw [Bool.eq_iff_iff]
  simp only [Bool.and_eq_true, Bool.or_eq_true, beq_iff_eq, bne_iff_ne, ne_eq]
  omega

theorem leapIdx_iff (y : Nat) :
    leapIdx y = true ↔ ((y + 1) % 4 = 0 ∧ ((y + 1) % 100 ≠ 0 ∨ (y + 1) % 400 = 0)) := by
  unfold leapIdx
  simp [Bool.and_eq_true, Bool.or_eq_true, beq_iff_eq, bne_iff_ne]

set_option maxHeartbeats 2000000 in
theorem dBYE_succ (y : Nat) : dBYE (y + 1) = dBYE y + daysInYearIdx y := by
  unfold dBYE daysInYearIdx
  by_cases h : leapIdx y = true
  · rw [if_pos h]
    rw [leapIdx_iff] at h
    omega
  · rw [if_neg h]
    rw [leapIdx_iff] at h
    omega

theorem dBYE_mono {y y2 : Nat} (h : y ≤ y2) : dBYE y ≤ dBYE y2 := by
  have h4 : y / 4 ≤ y2 / 4 := Nat.div_le_div_right h
  have h400 : y / 400 ≤ y2 / 400 := Nat.div_le_div_right h
  have hkey : y2 / 100 ≤ y / 100 + (y2 - y) := by
    have hstep : y2 ≤ y + 100 * (y2 - y) := by omega
    calc y2 / 100 ≤ (y + 100 * (y2 - y)) / 100 := Nat.div_le_div_right hstep
      _ = y / 100 + (y2 - y) := by omega
  unfold dBYE
  omega

theorem dBM_add_monthLen :
    ∀ leap : Bool, ∀ mo, mo < 13 → 1 ≤ mo →
      dBM leap mo + monthLen leap mo = dBM leap (mo + 1) := by decide

theorem dBM_succ_le_year :
    ∀ leap : Bool, ∀ mo, mo < 13 → dBM leap (mo + 1) ≤ (if leap then 366 else 365) := by decide

set_option maxHeartbeats 1000000 in
theorem dBM_mono : ∀ leap : Bool, ∀ a, a < 14 → ∀ b, b < 14 → a ≤ b →
    dBM leap a ≤ dBM leap b := by decide

theorem within_year_lt (leap : Bool) (mo dd : Nat) (hmo1 : 1 ≤ mo) (hmo : mo ≤ 12)
    (hdd1 : 1 ≤ dd) (hdd : dd ≤ monthLen leap mo) :
    dBM leap mo + (dd - 1) < (if leap then 366 else 365) := by
  have h1 := dBM_add_monthLen leap mo (by omega) hmo1
  have h2 := dBM_succ_le_year leap mo (by omega)
  omega

theorem civil_lt (leap leap2 : Bool) (y mo dd y2 mo2 dd2 : Nat)
    (hleap : leap = leapIdx y) (hleap2 : leap2 = leapIdx y2)
    (hmo1 : 1 ≤ mo) (hmo : mo ≤ 12) (hdd1 : 1 ≤ dd) (hdd : dd ≤ monthLen leap mo)
    (hmo1b : 1 ≤ mo2) (hmob : mo2 ≤ 12) (hdd1b : 1 ≤ dd2) (hddb : dd2 ≤ monthLen leap2 mo2)
    (hlex : y < y2 ∨ (y = y2 ∧ (mo < mo2 ∨ (mo = mo2 ∧ dd < dd2)))) :
    dBYE y + (dBM leap mo + (dd - 1)) < dBYE y2 + (dBM leap2 mo2 + (dd2 - 1)) := by
  rcases hlex with hy | ⟨hy, hrest⟩
  · have hwy := within_year_lt leap mo dd hmo1 hmo hdd1 hdd
    have hsucc := dBYE_succ y
    have hmono := dBYE_mono (show y + 1 ≤ y2 by omega)
    have hdiy : daysInYearIdx y = (if leap then 366 else 365) := by
      unfold daysInYearIdx
      rw [hleap]
    omega
  · subst hy
    have he : leap2 = leap := by rw [hleap2, hleap]
    subst he
    rcases hrest with hm | ⟨hm, hd⟩
    · have h1 := dBM_add_monthLen leap2 mo (by omega) hmo1
      have h2 := dBM_mono leap2 (mo + 1) (by omega) mo2 (by omega) (by omega)
      omega
    · subst hm
      omega

theorem dayDate_valid (d : Nat) :
    1 ≤ (dayMD d).1 ∧ (dayMD d).1 ≤ 12 ∧ 1 ≤ (dayMD d).2 ∧
      (dayMD d).2 ≤ monthLen (leapIdx (dayY d)) (dayMD d).1 ∧
      dBYE (dayY d) + (dBM (leapIdx (dayY d)) (dayMD d).1 + ((dayMD d).2 - 1)) = d := by
  have hspec := (absYearYday_spec d).1
  have hyd := absYearYday_yday_lt d
  have hmd := mdSpec_holds (leapIdx (absYearYday d).1) (absYearYday d).2
    (by unfold daysInYearIdx at hyd; exact hyd)
  unfold mdSpec at hmd
  simp only [Bool.and_eq_true, beq_iff_eq, decide_eq_true_eq] at hmd
  unfold dayY dayMD
  obtain ⟨⟨⟨⟨h1, h2⟩, h3⟩, h4⟩, h5⟩ := hmd
  exact ⟨h1, h2, h3, h4, by omega⟩

theorem dayDate_lt {da db : Nat} (h : da < db) :
    dayY da < dayY db ∨ (dayY da = dayY db ∧ ((dayMD da).1 < (dayMD db).1 ∨
      ((dayMD da).1 = (dayMD db).1 ∧ (dayMD da).2 < (dayMD db).2))) := by
  obtain ⟨am1, am2, ad1, ad2, art⟩ := dayDate_valid da
  obtain ⟨bm1, bm2, bd1, bd2, brt⟩ := dayDate_valid db
  rcases Nat.lt_trichotomy (dayY da) (dayY db) with hy | hy | hy
  · exact Or.inl hy
  · rcases Nat.lt_trichotomy (dayMD da).1 (dayMD db).1 with hm | hm | hm
    · exact Or.inr ⟨hy, Or.inl hm⟩
    · rcases Nat.lt_trichotomy (dayMD da).2 (dayMD db).2 with hdd | hdd | hdd
      · exact Or.inr ⟨hy, Or.inr ⟨hm, hdd⟩⟩
      · exfalso
        rw [← art, ← brt, hy, hm, hdd] at h
        exact Nat.lt_irrefl _ h
      · exfalso
        have hc := civil_lt (leapIdx (dayY db)) (leapIdx (dayY da)) (dayY db) (dayMD db).1
          (dayMD db).2 (dayY da) (dayMD da).1 (dayMD da).2 rfl rfl bm1 bm2 bd1 bd2
          am1 am2 ad1 ad2 (Or.inr ⟨hy.symm, Or.inr ⟨hm.symm, hdd⟩⟩)
        omega
    · exfalso
      have hc := civil_lt (leapIdx (dayY db)) (leapIdx (dayY da)) (dayY db) (dayMD db).1
        (dayMD db).2 (dayY da) (dayMD da).1 (dayMD da).2 rfl rfl bm1 bm2 bd1 bd2
        am1 am2 ad1 ad2 (Or.inr ⟨hy.symm, Or.inl hm⟩)
      omega
  · exfalso
    have hc := civil_lt (leapIdx (dayY db)) (leapIdx (dayY da)) (dayY db) (dayMD db).1
      (dayMD db).2 (dayY da) (dayMD da).1 (dayMD da).2 rfl rfl bm1 bm2 bd1 bd2
      am1 am2 ad1 ad2 (Or.inl hy)
    omega

theorem dayY_mono {da db : Nat} (h : da ≤ db) : dayY da ≤ dayY db := by
  rcases Nat.eq_or_lt_of_le h with heq | hlt
  · rw [heq]
  · rcases dayDate_lt hlt with hy | ⟨hy, _⟩
    · omega
    · omega

/-! ### Decimal padding and string order -/

theorem digitChar_lt : ∀ b, b < 10 → ∀ a, a < b → digitChar a < digitChar b := by decide

theorem fixedPad_length (w : Nat) : ∀ n, (fixedPad w n).length = w := by
  induction w with
  | zero => intro n; rfl
  | succ w ih =>
      intro n
      show (digitChar (n / 10 ^ w) :: fixedPad w (n % 10 ^ w)).length = w + 1
      rw [List.length_cons, ih]

theorem fixedPad_lt (w : Nat) : ∀ a b, a < b → b < 10 ^ w →
    List.lt (fixedPad w a) (fixedPad w b) := by
  induction w with
  | zero =>
      intro a b hab hb
      simp only [pow_zero] at hb
      omega
  | succ w ih =>
      intro a b hab hb
      have hpow : (10 : Nat) ^ (w + 1) = 10 ^ w * 10 := pow_succ 10 w
      have hta : a / 10 ^ w ≤ b / 10 ^ w := Nat.div_le_div_right (le_of_lt hab)
      have htb : b / 10 ^ w < 10 := Nat.div_lt_of_lt_mul (by omega)
      show List.lt (digitChar (a / 10 ^ w) :: fixedPad w (a % 10 ^ w))
        (digitChar (b / 10 ^ w) :: fixedPad w (b % 10 ^ w))
      rcases Nat.eq_or_lt_of_le hta with heq | hlt
      · refine List.lt.tail ?_ ?_ ?_
        · rw [heq]; exact lt_irrefl _
        · rw [heq]; exact lt_irrefl _
        · refine ih _ _ ?_ ?_
          · have ha := Nat.div_add_mod a (10 ^ w)
            have hb2 := Nat.div_add_mod b (10 ^ w)
            rw [heq] at ha
            omega
          · exact Nat.mod_lt _ (Nat.pos_pow_of_pos w (by omega))
      · exact List.lt.head _ _ (digitChar_lt _ htb _ hlt)

theorem listlt_append_same (zs : List Char) {xs ys : List Char} (h : List.lt xs ys) :
    List.lt (zs ++ xs) (zs ++ ys) := by
  induction zs with
  | nil => exact h
  | cons z zs ih => exact List.lt.tail (lt_irrefl z) (lt_irrefl z) ih

theorem listlt_append_left {ps qs : List Char} (h : List.lt ps qs) :
    ∀ xs ys : List Char, ps.length = qs.length → List.lt (ps ++ xs) (qs ++ ys) := by
  induction h with
  | nil b bs =>
      intro xs ys hlen
      simp at hlen
  | head as bs hab =>
      intro xs ys hlen
      exact List.lt.head _ _ hab
  | tail hab hba hlt ih =>
      intro xs ys hlen
      refine List.lt.tail hab hba (ih xs ys ?_)
      simpa using hlen

theorem goPadInt_eq_mk (w : Nat) (v : Int) (h0 : 0 ≤ v) (hlt : v.natAbs < 10 ^ w) :
    goPadInt w v = String.mk (fixedPad w v.natAbs) := by
  unfold goPadInt
  rw [if_neg (by omega), if_pos hlt]
  show ("" : String) ++ String.mk (fixedPad w v.natAbs) = String.mk (fixedPad w v.natAbs)
  rfl

theorem divmod_lex {a b k : Nat} (h : a < b) :
    a / k < b / k ∨ (a / k = b / k ∧ a % k < b % k) := by
  have ha := Nat.div_add_mod a k
  have hb := Nat.div_add_mod b k
  have hd : a / k ≤ b / k := Nat.div_le_div_right (le_of_lt h)
  rcases Nat.eq_or_lt_of_le hd with he | hl
  · refine Or.inr ⟨he, ?_⟩
    rw [he] at ha
    omega
  · exact Or.inl hl

theorem stampChars_lt
    (y mo dd hh mi ss na y2 mo2 dd2 hh2 mi2 ss2 na2 : Nat)
    (hy2 : y2 < 10 ^ 4) (hmo2 : mo2 < 10 ^ 2) (hdd2 : dd2 < 10 ^ 2) (hhh2 : hh2 < 10 ^ 2)
    (hmi2 : mi2 < 10 ^ 2) (hss2 : ss2 < 10 ^ 2) (hna2 : na2 < 10 ^ 9)
    (hlex : y < y2 ∨ (y = y2 ∧ (mo < mo2 ∨ (mo = mo2 ∧ (dd < dd2 ∨ (dd = dd2 ∧
      (hh < hh2 ∨ (hh = hh2 ∧ (mi < mi2 ∨ (mi = mi2 ∧ (ss < ss2 ∨ (ss = ss2 ∧
        na < na2)))))))))))) :
    List.lt (stampChars y mo dd hh mi ss na) (stampChars y2 mo2 dd2 hh2 mi2 ss2 na2) := by
  unfold stampChars
  rcases hlex with h | ⟨he, hlex⟩
  · exact listlt_append_left (fixedPad_lt 4 _ _ h hy2) _ _
      (by rw [fixedPad_length, fixedPad_length])
  · subst he
    apply listlt_append_same
    refine List.lt.tail (lt_irrefl _) (lt_irrefl _) ?_
    rcases hlex with h | ⟨he, hlex⟩
    · exact listlt_append_left (fixedPad_lt 2 _ _ h hmo2) _ _
        (by rw [fixedPad_length, fixedPad_length])
    · subst he
      apply listlt_append_same
      refine List.lt.tail (lt_irrefl _) (lt_irrefl _) ?_
      rcases hlex with h | ⟨he, hlex⟩
      · exact listlt_append_left (fixedPad_lt 2 _ _ h hdd2) _ _
          (by rw [fixedPad_length, fixedPad_length])
      · subst he
        apply listlt_append_same
        refine List.lt.tail (lt_irrefl _) (lt_irrefl _) ?_
        rcases hlex with h | ⟨he, hlex⟩
        · exact listlt_append_left (fixedPad_lt 2 _ _ h hhh2) _ _
            (by rw [fixedPad_length, fixedPad_length])
        · subst he
          apply listlt_append_same
          refine List.lt.tail (lt_irrefl _) (lt_irrefl _) ?_
          rcases hlex with h | ⟨he, hlex⟩
          · exact listlt_append_left (fixedPad_lt 2 _ _ h hmi2) _ _
              (by rw [fixedPad_length, fixedPad_length])
          · subst he
            apply listlt_append_same
            refine List.lt.tail (lt_irrefl _) (lt_irrefl _) ?_
            rcases hlex with h | ⟨he, hna⟩
            · exact listlt_append_left (fixedPad_lt 2 _ _ h hss2) _ _
                (by rw [fixedPad_length, fixedPad_length])
            · subst he
              apply listlt_append_same
              refine List.lt.tail (lt_irrefl _) (lt_irrefl _) ?_
              exact listlt_append_left (fixedPad_lt 9 _ _ hna hna2) _ _
                (by rw [fixedPad_length, fixedPad_length])
theorem unixToAbsolute_eq : unixToAbsolute = (9223372028715321600 : Int) := by decide

theorem unixToAbsoluteN_eq : unixToAbsoluteN = 9223372028715321600 := by
  unfold unixToAbsoluteN
  rw [unixToAbsolute_eq]
  rfl

theorem monthLen_le : ∀ leap : Bool, ∀ mo, mo < 13 → monthLen leap mo ≤ 31 := by decide

theorem dayY_min : dayY 106751991073094 = 292277024369 := by decide

theorem dayY_max : dayY 106751991179845 = 292277024661 := by decide

theorem absDate_year (A : Nat) :
    (absDate A).year = ((absYearYday (A / secondsPerDay)).1 : Int) + absoluteZeroYear := rfl

theorem absDate_month (A : Nat) : (absDate A).month = (dayMD (A / secondsPerDay)).1 := by
  unfold absDate dayMD
  show (absMonthDay (isLeap (((absYearYday (A / secondsPerDay)).1 : Int) + absoluteZeroYear))
    (absYearYday (A / secondsPerDay)).2).1 = _
  rw [isLeap_absYear]

theorem absDate_day (A : Nat) : (absDate A).day = (dayMD (A / secondsPerDay)).2 := by
  unfold absDate dayMD
  show (absMonthDay (isLeap (((absYearYday (A / secondsPerDay)).1 : Int) + absoluteZeroYear))
    (absYearYday (A / secondsPerDay)).2).2 = _
  rw [isLeap_absYear]

theorem absClock_hh (A : Nat) : (absClock A).1 = A % secondsPerDay / 3600 := rfl

theorem absClock_mi (A : Nat) : (absClock A).2.1 = A % secondsPerDay % 3600 / 60 := rfl

theorem absClock_ss (A : Nat) : (absClock A).2.2 = A % secondsPerDay % 60 := rfl

theorem padYear (y : Nat) (h1 : 292277024369 ≤ y) (h2 : y ≤ 292277024661) :
    goPadInt 4 ((y : Int) + absoluteZeroYear) = String.mk (fixedPad 4 (y - 292277022399)) := by
  have haz : absoluteZeroYear = (-292277022399 : Int) := rfl
  have h104 : (10 : Nat) ^ 4 = 10000 := by norm_num
  have habs : (((y : Nat) : Int) + absoluteZeroYear).natAbs = y - 292277022399 := by
    rw [haz]
    omega
  rw [goPadInt_eq_mk 4 _ (by rw [haz]; omega) (by rw [habs, h104]; omega), habs]

theorem padNat2 (x : Nat) (hx : x < 100) :
    goPadInt 2 ((x : Nat) : Int) = String.mk (fixedPad 2 x) := by
  have h102 : (10 : Nat) ^ 2 = 100 := by norm_num
  have habs : ((x : Nat) : Int).natAbs = x := by omega
  rw [goPadInt_eq_mk 2 _ (by omega) (by rw [habs, h102]; exact hx), habs]

theorem padNat9 (x : Nat) (hx : x < 1000000000) :
    goPadInt 9 ((x : Nat) : Int) = String.mk (fixedPad 9 x) := by
  have h109 : (10 : Nat) ^ 9 = 1000000000 := by norm_num
  have habs : ((x : Nat) : Int).natAbs = x := by omega
  rw [goPadInt_eq_mk 9 _ (by omega) (by rw [habs, h109]; exact hx), habs]

theorem hhBound (A : Nat) : A % secondsPerDay / 3600 < 100 := by
  unfold secondsPerDay
  omega

theorem miBound (A : Nat) : A % secondsPerDay % 3600 / 60 < 100 := by
  unfold secondsPerDay
  omega

theorem ssBound (A : Nat) : A % secondsPerDay % 60 < 100 := by
  unfold secondsPerDay
  omega

/-- Character-level form of `formatTimestamp` on a nonnegative `int64`
nanosecond count: the fixed-width decimal fields of the layout
`2006-01-02T15:04:05.000000000Z`, computed from the calendar decomposition of
the absolute second count. -/
theorem formatTimestamp_data (m : Nat) (hm : m ≤ int64MaxN) :
    (formatTimestamp (m : Int)).data =
      stampChars (dayY (absSecN m / secondsPerDay) - 292277022399)
        (dayMD (absSecN m / secondsPerDay)).1
        (dayMD (absSecN m / secondsPerDay)).2
        (absSecN m % secondsPerDay / 3600)
        (absSecN m % secondsPerDay % 3600 / 60)
        (absSecN m % secondsPerDay % 60)
        (m % nsPerSecond) := by
  unfold int64MaxN at hm
  have hq : m / 1000000000 ≤ 9223372036 := by omega
  have htmod : (m : Int).tmod ((nsPerSecond : Nat) : Int) =
      ((m % 1000000000 : Nat) : Int) := rfl
  have htdiv : (m : Int).tdiv ((nsPerSecond : Nat) : Int) =
      ((m / 1000000000 : Nat) : Int) := rfl
  have hnn : ¬ (((m % 1000000000 : Nat) : Int) < 0) := by omega
  have hkey : ((((m / 1000000000 : Nat) : Int) + unixToAbsolute) % uint64Mod).toNat =
      absSecN m := by
    rw [unixToAbsolute_eq]
    unfold uint64Mod absSecN nsPerSecond
    rw [unixToAbsoluteN_eq]
    omega
  have hdlo : 106751991073094 ≤ absSecN m / secondsPerDay := by
    have h1 : (9223372028715321600 : Nat) ≤ absSecN m := by
      unfold absSecN nsPerSecond
      rw [unixToAbsoluteN_eq]
      omega
    calc 106751991073094 = 9223372028715321600 / secondsPerDay := by decide
    _ ≤ absSecN m / secondsPerDay := Nat.div_le_div_right h1
  have hdhi : absSecN m / secondsPerDay ≤ 106751991179845 := by
    have h1 : absSecN m ≤ 9223372036 + 9223372028715321600 := by
      unfold absSecN nsPerSecond
      rw [unixToAbsoluteN_eq]
      omega
    calc absSecN m / secondsPerDay ≤ (9223372036 + 9223372028715321600) / secondsPerDay :=
      Nat.div_le_div_right h1
    _ = 106751991179845 := by decide
  have hylo : 292277024369 ≤ dayY (absSecN m / secondsPerDay) := by
    rw [← dayY_min]
    exact dayY_mono hdlo
  have hyhi : dayY (absSecN m / secondsPerDay) ≤ 292277024661 := by
    rw [← dayY_max]
    exact dayY_mono hdhi
  obtain ⟨hmo1, hmo2, hdd1, hdd2, hrt⟩ := dayDate_valid (absSecN m / secondsPerDay)
  have hddle : (dayMD (absSecN m / secondsPerDay)).2 ≤ 31 :=
    le_trans hdd2 (monthLen_le _ _ (by omega))
  simp only [formatTimestamp, htmod, htdiv]
  rw [if_neg hnn, if_neg hnn]
  rw [hkey]
  clear hq htmod htdiv hnn hkey
  generalize hA : absSecN m = A at hdlo hdhi hylo hyhi hmo1 hmo2 hdd1 hdd2 hrt hddle ⊢
  clear hA
  rw [absDate_year, absDate_month, absDate_day, absClock_hh, absClock_mi, absClock_ss]
  have hyd : (absYearYday (A / secondsPerDay)).1 = dayY (A / secondsPerDay) := rfl
  rw [hyd]
  rw [padYear _ hylo hyhi]
  rw [padNat2 (dayMD (A / secondsPerDay)).1 (lt_of_le_of_lt hmo2 (by norm_num))]
  rw [padNat2 (dayMD (A / secondsPerDay)).2 (lt_of_le_of_lt hddle (by norm_num))]
  rw [padNat2 (A % secondsPerDay / 3600) (hhBound A)]
  rw [padNat2 (A % secondsPerDay % 3600 / 60) (miBound A)]
  rw [padNat2 (A % secondsPerDay % 60) (ssBound A)]
  rw [padNat9 (m % 1000000000) (Nat.mod_lt _ (by norm_num))]
  have hns : nsPerSecond = 1000000000 := rfl
  rw [hns]
  have hmk : ∀ l : List Char, (String.mk l).data = l := fun _ => rfl
  have hdash : ("-" : String).data = ['-'] := rfl
  have hT : ("T" : String).data = ['T'] := rfl
  have hcolon : (":" : String).data = [':'] := rfl
  have hdot : ("." : String).data = ['.'] := rfl
  have hZ : ("Z" : String).data = ['Z'] := rfl
  simp only [String.data_append, hmk, hdash, hT, hcolon, hdot, hZ, stampChars,
    List.append_assoc, List.singleton_append]
  rfl

/-- For instants representable as a nonnegative `int64` nanosecond count the
absolute year index stays between 292277024369 (year 1970) and 292277024661
(year 2262). -/
theorem dayRange (m : Nat) (hm : m ≤ int64MaxN) :
    292277024369 ≤ dayY (absSecN m / secondsPerDay) ∧
      dayY (absSecN m / secondsPerDay) ≤ 292277024661 := by
  unfold int64MaxN at hm
  have hq : m / 1000000000 ≤ 9223372036 := by omega
  have hdlo : 106751991073094 ≤ absSecN m / secondsPerDay := by
    have h1 : (9223372028715321600 : Nat) ≤ absSecN m := by
      unfold absSecN nsPerSecond
      rw [unixToAbsoluteN_eq]
      omega
    calc 106751991073094 = 9223372028715321600 / secondsPerDay := by decide
    _ ≤ absSecN m / secondsPerDay := Nat.div_le_div_right h1
  have hdhi : absSecN m / secondsPerDay ≤ 106751991179845 := by
    have h1 : absSecN m ≤ 9223372036 + 9223372028715321600 := by
      unfold absSecN nsPerSecond
      rw [unixToAbsoluteN_eq]
      omega
    calc absSecN m / secondsPerDay ≤ (9223372036 + 9223372028715321600) / secondsPerDay :=
      Nat.div_le_div_right h1
    _ = 106751991179845 := by decide
  constructor
  · rw [← dayY_min]
    exact dayY_mono hdlo
  · rw [← dayY_max]
    exact dayY_mono hdhi

theorem secLex (a b : Nat) (hab : a < b) :
    absSecN a < absSecN b ∨ (absSecN a = absSecN b ∧ a % nsPerSecond < b % nsPerSecond) := by
  unfold absSecN nsPerSecond
  omega

theorem dayLex (S T : Nat) (h : S < T) :
    S / secondsPerDay < T / secondsPerDay ∨
      (S / secondsPerDay = T / secondsPerDay ∧ S % secondsPerDay < T % secondsPerDay) := by
  unfold secondsPerDay
  omega

theorem clockLex (s t : Nat) (h : s < t) :
    s / 3600 < t / 3600 ∨ (s / 3600 = t / 3600 ∧
      (s % 3600 / 60 < t % 3600 / 60 ∨ (s % 3600 / 60 = t % 3600 / 60 ∧
        s % 60 < t % 60))) := by
  omega

theorem yFieldBound (y : Nat) (h : y ≤ 292277024661) : y - 292277022399 < 10 ^ 4 := by
  have h4 : (10 : Nat) ^ 4 = 10000 := by norm_num
  omega

theorem moFieldBound (x : Nat) (h : x ≤ 12) : x < 10 ^ 2 := by
  have h2 : (10 : Nat) ^ 2 = 100 := by norm_num
  omega

theorem ddFieldBound (x : Nat) (h : x ≤ 31) : x < 10 ^ 2 := by
  have h2 : (10 : Nat) ^ 2 = 100 := by norm_num
  omega

theorem hhFieldBound (A : Nat) : A % secondsPerDay / 3600 < 10 ^ 2 := by
  have h2 : (10 : Nat) ^ 2 = 100 := by norm_num
  unfold secondsPerDay
  omega

theorem miFieldBound (A : Nat) : A % secondsPerDay % 3600 / 60 < 10 ^ 2 := by
  have h2 : (10 : Nat) ^ 2 = 100 := by norm_num
  unfold secondsPerDay
  omega

theorem ssFieldBound (A : Nat) : A % secondsPerDay % 60 < 10 ^ 2 := by
  have h2 : (10 : Nat) ^ 2 = 100 := by norm_num
  unfold secondsPerDay
  omega

theorem naFieldBound (m : Nat) : m % nsPerSecond < 10 ^ 9 := by
  have h9 : (10 : Nat) ^ 9 = 1000000000 := by norm_num
  unfold nsPerSecond
  omega

/-- `formatTimestamp` is strictly increasing on nanosecond counts in
`[0, 2^63 - 1]` (string order = List Char lexicographic order): the year field
stays four digits there, so the fixed-width layout is order-preserving. -/
theorem formatTimestamp_lt (a b : Nat) (hab : a < b) (hb : b ≤ int64MaxN) :
    formatTimestamp ((a : Nat) : Int) < formatTimestamp ((b : Nat) : Int) := by
  have hda := formatTimestamp_data a (by omega)
  have hdb := formatTimestamp_data b hb
  obtain ⟨hyloa, hyhia⟩ := dayRange a (by omega)
  obtain ⟨hylob, hyhib⟩ := dayRange b hb
  obtain ⟨bmo1, bmo2, bdd1, bdd2, brt⟩ := dayDate_valid (absSecN b / secondsPerDay)
  have bddle : (dayMD (absSecN b / secondsPerDay)).2 ≤ 31 :=
    le_trans bdd2 (monthLen_le _ _ (by omega))
  have hlex : dayY (absSecN a / secondsPerDay) - 292277022399 <
        dayY (absSecN b / secondsPerDay) - 292277022399 ∨
      (dayY (absSecN a / secondsPerDay) - 292277022399 =
          dayY (absSecN b / secondsPerDay) - 292277022399 ∧
        ((dayMD (absSecN a / secondsPerDay)).1 < (dayMD (absSecN b / secondsPerDay)).1 ∨
          ((dayMD (absSecN a / secondsPerDay)).1 = (dayMD (absSecN b / secondsPerDay)).1 ∧
            ((dayMD (absSecN a / secondsPerDay)).2 < (dayMD (absSecN b / secondsPerDay)).2 ∨
              ((dayMD (absSecN a / secondsPerDay)).2 = (dayMD (absSecN b / secondsPerDay)).2 ∧
                (absSecN a % secondsPerDay / 3600 < absSecN b % secondsPerDay / 3600 ∨
                  (absSecN a % secondsPerDay / 3600 = absSecN b % secondsPerDay / 3600 ∧
                    (absSecN a % secondsPerDay % 3600 / 60 <
                        absSecN b % secondsPerDay % 3600 / 60 ∨
                      (absSecN a % secondsPerDay % 3600 / 60 =
                          absSecN b % secondsPerDay % 3600 / 60 ∧
                        (absSecN a % secondsPerDay % 60 < absSecN b % secondsPerDay % 60 ∨
                          (absSecN a % secondsPerDay % 60 = absSecN b % secondsPerDay % 60 ∧
                            a % nsPerSecond < b % nsPerSecond))))))))))) := by
    rcases secLex a b hab with hsec | ⟨hsec, hna⟩
    · rcases dayLex _ _ hsec with hday | ⟨hday, hsod⟩
      · rcases dayDate_lt hday with hy | ⟨hy, hmd⟩
        · exact Or.inl (by omega)
        · refine Or.inr ⟨by omega, ?_⟩
          rcases hmd with hmo | ⟨hmo, hdd⟩
          · exact Or.inl hmo
          · exact Or.inr ⟨hmo, Or.inl hdd⟩
      · rw [hday]
        refine Or.inr ⟨rfl, Or.inr ⟨rfl, Or.inr ⟨rfl, ?_⟩⟩⟩
        rcases clockLex _ _ hsod with hh | ⟨hh, hrest⟩
        · exact Or.inl hh
        · refine Or.inr ⟨hh, ?_⟩
          rcases hrest with hmi | ⟨hmi, hss⟩
          · exact Or.inl hmi
          · exact Or.inr ⟨hmi, Or.inl hss⟩
    · rw [hsec]
      exact Or.inr ⟨rfl, Or.inr ⟨rfl, Or.inr ⟨rfl, Or.inr ⟨rfl, Or.inr ⟨rfl,
        Or.inr ⟨rfl, hna⟩⟩⟩⟩⟩⟩
  have htl : ∀ s : String, s.toList = s.data := fun s => rfl
  rw [String.lt_iff_toList_lt, htl, htl, hda, hdb]
  exact (List.lt_iff_lex_lt _ _).mp (stampChars_lt _ _ _ _ _ _ _ _ _ _ _ _ _ _
    (yFieldBound _ hyhib) (moFieldBound _ bmo2) (ddFieldBound _ bddle)
    (hhFieldBound (absSecN b)) (miFieldBound (absSecN b)) (ssFieldBound (absSecN b))
    (naFieldBound b) hlex)

theorem formatTimestamp_lt_int (x y : Int) (h0 : 0 ≤ x) (hxy : x < y) (hy : y ≤ int64Max) :
    formatTimestamp x < formatTimestamp y := by
  have hyM : y.toNat ≤ int64MaxN := by
    unfold int64MaxN
    unfold int64Max at hy
    omega
  have h1 : x = ((x.toNat : Nat) : Int) := by omega
  have h2 : y = ((y.toNat : Nat) : Int) := by omega
  rw [h1, h2]
  exact formatTimestamp_lt x.toNat y.toNat (by omega) hyM

theorem genStep_gt (last now : Int) : last < genStep last now := by
  unfold genStep
  split
  · omega
  · omega

theorem runGeneratorNs_gt (clocks : List Int) :
    ∀ last, ∀ t ∈ runGeneratorNs last clocks, last < t := by
  induction clocks with
  | nil =>
      intro last t ht
      simp [runGeneratorNs] at ht
  | cons now rest ih =>
      intro last t ht
      simp only [runGeneratorNs] at ht
      rcases List.mem_cons.mp ht with rfl | ht
      · exact genStep_gt last now
      · exact lt_trans (genStep_gt last now) (ih (genStep last now) t ht)

theorem runGeneratorNs_pairwise (clocks : List Int) :
    ∀ last, List.Pairwise (fun x y : Int => x < y) (runGeneratorNs last clocks) := by
  induction clocks with
  | nil => intro last; exact List.Pairwise.nil
  | cons now rest ih =>
      intro last
      simp only [runGeneratorNs]
      exact List.Pairwise.cons (fun t ht => runGeneratorNs_gt rest (genStep last now) t ht)
        (ih (genStep last now))

theorem genStep_le (last now M : Int) (hl : last ≤ M) (hn : now ≤ M + 1) :
    genStep last now ≤ M + 1 := by
  unfold genStep
  split
  · omega
  · omega

theorem runGeneratorNs_le (clocks : List Int) :
    ∀ last M, last ≤ M → (∀ c ∈ clocks, c ≤ M) →
      ∀ t ∈ runGeneratorNs last clocks, t ≤ M + clocks.length := by
  induction clocks with
  | nil =>
      intro last M _ _ t ht
      simp [runGeneratorNs] at ht
  | cons now rest ih =>
      intro last M hl hc t ht
      have hnow : now ≤ M + 1 := by
        have := hc now (by simp)
        omega
      simp only [runGeneratorNs] at ht
      rcases List.mem_cons.mp ht with rfl | ht
      · have := genStep_le last now M hl hnow
        simp only [List.length_cons]
        push_cast
        omega
      · have h2 := ih (genStep last now) (M + 1) (genStep_le last now M hl hnow)
          (fun c hcm => by
            have := hc c (by simp [hcm])
            omega) t ht
        simp only [List.length_cons] at h2 ⊢
        push_cast at h2 ⊢
        omega

/-- C2: For every sequence of `GenerateUniqueTimestamp` calls (the mutex
serializes them; `clocks` are the successive `time.Now().UnixNano()` readings,
assumed representable so that the bumped values stay within `int64`), the
returned timestamp strings are pairwise distinct and strictly increasing in
call order; and whenever the wall clock has not advanced past the previously
issued value, the generator issues exactly the previous value plus one
nanosecond. -/
theorem c2_unique_timestamps (clocks : List Int)
    (hbound : ∀ c ∈ clocks, c + clocks.length ≤ int64Max)
    (hlen : (clocks.length : Int) ≤ int64Max) :
    List.Pairwise (fun s t : String => s < t) (GenerateUniqueTimestamps clocks) ∧
      List.Pairwise (fun s t : String => s ≠ t) (GenerateUniqueTimestamps clocks) ∧
      (∀ last now : Int, now ≤ last → genStep last now = last + 1) := by
  have hM : ∀ c ∈ clocks, c ≤ int64Max - clocks.length := by
    intro c hc
    have := hbound c hc
    omega
  have h0M : (0 : Int) ≤ int64Max - clocks.length := by
    have hz : (0 : Int) ≤ int64Max := by decide
    omega
  have hub : ∀ t ∈ runGeneratorNs 0 clocks, t ≤ int64Max := by
    intro t ht
    have := runGeneratorNs_le clocks 0 (int64Max - clocks.length) h0M hM t ht
    omega
  have hgt := runGeneratorNs_gt clocks 0
  have hlt : List.Pairwise (fun x y : Int => formatTimestamp x < formatTimestamp y)
      (runGeneratorNs 0 clocks) := by
    refine List.Pairwise.imp_of_mem ?_ (runGeneratorNs_pairwise clocks 0)
    intro x y hx hy hxy
    exact formatTimestamp_lt_int x y (le_of_lt (hgt x hx)) hxy (hub y hy)
  refine ⟨?_, ?_, ?_⟩
  · unfold GenerateUniqueTimestamps
    exact List.pairwise_map.mpr hlt
  · unfold GenerateUniqueTimestamps
    refine List.pairwise_map.mpr (hlt.imp ?_)
    intro s t h
    exact ne_of_lt h
  · intro last now h
    unfold genStep
    rw [if_pos h]

theorem c2_unique_timestamps_witness :
    List.Pairwise (fun s t : String => s < t) (GenerateUniqueTimestamps [5, 5, 3]) ∧
      List.Pairwise (fun s t : String => s ≠ t) (GenerateUniqueTimestamps [5, 5, 3]) ∧
      (∀ last now : Int, now ≤ last → genStep last now = last + 1) :=
  c2_unique_timestamps [5, 5, 3] (by decide) (by decide)

theorem GenerateUniqueTimestamps_values :
    GenerateUniqueTimestamps [5, 5, 3] =
      [("1970-01-01T00:00:00.000000005Z"), ("1970-01-01T00:00:00.000000006Z"),
        ("1970-01-01T00:00:00.000000007Z")] := by decide

theorem formatTimestamp_epoch : formatTimestamp 0 = ("1970-01-01T00:00:00.000000000Z") := by
  decide

theorem formatTimestamp_max :
    formatTimestamp int64Max = ("2262-04-11T23:47:16.854775807Z") := by decide

theorem formatTimestamp_leapday :
    formatTimestamp 951782399000000000 = ("2000-02-28T23:59:59.000000000Z") ∧
      formatTimestamp 951782400000000000 = ("2000-02-29T00:00:00.000000000Z") := by decide

